import Mathlib

/-!
Verification of the topblock interaction engine.

The development shallowly embeds the TypeScript sources:
* `src/game/blocks.ts` — the static shape catalog (`BLOCK_DEFINITIONS`);
* `BlockObject.ts` — per-block committed state (cell offsets, position) and the
  discrete part of its animation state machine (`rotateBlock`, `snapToGrid`,
  `getWorldCellPositions`, `animatePositionTo`, the completion branch of
  `updateAnimation`);
* `src/game/InteractionManager.ts` — adjacency/connectivity, collision
  detection, drag, group rotation, gizmo angle accumulation, and the pointer
  gesture state machine.

Machine numbers: positions are real-valued in the source (`THREE.Vector3`), but
every value the engine commits is produced by `Math.round`/`Math.max` from
previously committed values, so positions are embedded as rational triples
(`Q3`) and cell offsets as integer triples (`Z3`).  `Math.round` rounds half
towards +∞, exactly Mathlib's `round` on `ℚ`.  Ray-cast results (which object a
ray hits, where a ray meets a plane) depend on camera geometry outside the
model, so they enter the event transitions as oracle data.
-/

namespace TopBlock

/-- A triple of coordinates; `Vec3 ℤ` for committed cell offsets / grid data,
`Vec3 ℚ` for (possibly mid-drag) world positions. -/
@[ext]
structure Vec3 (α : Type) where
  x : α
  y : α
  z : α
deriving DecidableEq, Repr

instance {α : Type} [Add α] : Add (Vec3 α) :=
  ⟨fun a b => ⟨a.x + b.x, a.y + b.y, a.z + b.z⟩⟩

instance {α : Type} [Sub α] : Sub (Vec3 α) :=
  ⟨fun a b => ⟨a.x - b.x, a.y - b.y, a.z - b.z⟩⟩

@[simp]
theorem Vec3.add_def {α : Type} [Add α] (a b : Vec3 α) :
    a + b = ⟨a.x + b.x, a.y + b.y, a.z + b.z⟩ := rfl

@[simp]
theorem Vec3.sub_def {α : Type} [Sub α] (a b : Vec3 α) :
    a - b = ⟨a.x - b.x, a.y - b.y, a.z - b.z⟩ := rfl

abbrev Z3 := Vec3 ℤ
abbrev Q3 := Vec3 ℚ

/-- Dot product (`THREE.Vector3.dot`). -/
def Vec3.dot {α : Type} [Mul α] [Add α] (a b : Vec3 α) : α :=
  a.x * b.x + a.y * b.y + a.z * b.z

/-- Cross product (`THREE.Vector3.crossVectors`). -/
def Vec3.cross {α : Type} [Mul α] [Sub α] (a b : Vec3 α) : Vec3 α :=
  ⟨a.y * b.z - a.z * b.y, a.z * b.x - a.x * b.z, a.x * b.y - a.y * b.x⟩

/-- Scalar multiple (`THREE.Vector3.multiplyScalar`). -/
def Vec3.scale {α : Type} [Mul α] (c : α) (v : Vec3 α) : Vec3 α :=
  ⟨c * v.x, c * v.y, c * v.z⟩

/-- Embed an integer triple into rational coordinates. -/
def Z3.toQ (v : Z3) : Q3 := ⟨(v.x : ℚ), (v.y : ℚ), (v.z : ℚ)⟩

/-- Componentwise `Math.round`.  JavaScript's `Math.round` rounds halves
towards +∞, which is exactly Mathlib's `round` on `ℚ` (`⌊x + 1/2⌋`). -/
def roundQ3 (v : Q3) : Z3 := ⟨round v.x, round v.y, round v.z⟩

/-- The six signed cardinal unit directions.  Every rotation the engine ever
performs is 90° about one of these: the gizmo rings yield +X/+Y/+Z possibly
negated by the accumulated-angle sign, and `flipBlock` snaps its camera-derived
axis to this set. -/
inductive Axis where
  | xp | xn | yp | yn | zp | zn
deriving DecidableEq, Repr

/-- The unit vector of a cardinal axis. -/
def Axis.vec : Axis → Z3
  | .xp => ⟨1, 0, 0⟩
  | .xn => ⟨-1, 0, 0⟩
  | .yp => ⟨0, 1, 0⟩
  | .yn => ⟨0, -1, 0⟩
  | .zp => ⟨0, 0, 1⟩
  | .zn => ⟨0, 0, -1⟩

/-- The opposite cardinal direction (`axis.clone().multiplyScalar(-1)`). -/
def Axis.neg : Axis → Axis
  | .xp => .xn
  | .xn => .xp
  | .yp => .yn
  | .yn => .yp
  | .zp => .zn
  | .zn => .zp

/-- Exact value of `v.applyQuaternion(q)` for
`q = new THREE.Quaternion().setFromAxisAngle(a, Math.PI / 2)` with `a` a unit
cardinal axis.  In exact arithmetic `q = (s·a, s)` with `s = √2/2`, and
`q v q⁻¹ = v + 2s²(a × v) + 2s²(a × (a × v)) = (a × v) + (a·v)a`
(using `2s² = 1` and `a × (a × v) = (a·v)a − v` for unit `a`); the float
computation approximates this within well under 1/2 per component, so the
subsequent `Math.round` recovers the exact value below. -/
def rotQ (a : Axis) (v : Q3) : Q3 :=
  (Vec3.cross a.vec.toQ v) + Vec3.scale (Vec3.dot a.vec.toQ v) a.vec.toQ

/-- `BlockObject.rotateBlock`'s per-cell map: apply the 90° axis-angle
quaternion to the integer cell offset, then `Math.round` each coordinate.
(`pendingCells = cells.map(cell => round(applyQuaternion(cell)))`.) -/
def cellRot (a : Axis) (c : Z3) : Z3 := roundQ3 (rotQ a c.toQ)

/-- Integer closed form of the same rotation: `(a × c) + (a·c)a`. -/
def rot90 (a : Axis) (c : Z3) : Z3 :=
  (Vec3.cross a.vec c) + Vec3.scale (Vec3.dot a.vec c) a.vec

theorem rotQ_toQ (a : Axis) (c : Z3) : rotQ a c.toQ = (rot90 a c).toQ := by
  cases a <;>
    · ext <;>
        simp [rotQ, rot90, Axis.vec, Z3.toQ, Vec3.cross, Vec3.dot, Vec3.scale]

theorem cellRot_eq_rot90 (a : Axis) (c : Z3) : cellRot a c = rot90 a c := by
  rw [cellRot, rotQ_toQ]
  simp [roundQ3, Z3.toQ]

theorem rot90_rot90_rot90_rot90 (a : Axis) (c : Z3) :
    rot90 a (rot90 a (rot90 a (rot90 a c))) = c := by
  cases a <;>
    · ext <;>
        simp [rot90, Axis.vec, Vec3.cross, Vec3.dot, Vec3.scale]

/-! ## BlockObject (discrete state) -/

/-- `BlockDefinition` from `blocks.ts` (color omitted — cosmetic). -/
structure BlockDefinition where
  id : ℕ
  cells : List Z3
deriving DecidableEq, Repr

instance : Inhabited BlockDefinition := ⟨⟨0, []⟩⟩

/-- The static shape catalog `BLOCK_DEFINITIONS`. -/
def BLOCK_DEFINITIONS : List BlockDefinition :=
  [ ⟨0, [⟨0, 0, 0⟩, ⟨-1, 0, 0⟩, ⟨0, 0, 1⟩]⟩,
    ⟨1, [⟨0, 0, 0⟩, ⟨-1, 0, 0⟩, ⟨0, 0, 1⟩, ⟨1, 0, 1⟩]⟩,
    ⟨2, [⟨0, 0, 0⟩, ⟨-1, 0, 0⟩, ⟨1, 0, 0⟩, ⟨1, 0, 1⟩]⟩,
    ⟨3, [⟨0, 0, 0⟩, ⟨-1, 0, 0⟩, ⟨1, 0, 0⟩, ⟨0, 0, 1⟩]⟩,
    ⟨4, [⟨0, 0, 0⟩, ⟨-1, 0, 0⟩, ⟨0, 0, 1⟩, ⟨0, 1, 0⟩]⟩,
    ⟨5, [⟨0, 0, 0⟩, ⟨-1, 0, 0⟩, ⟨0, 0, 1⟩, ⟨-1, 1, 0⟩]⟩,
    ⟨6, [⟨0, 0, 0⟩, ⟨-1, 0, 0⟩, ⟨0, 0, 1⟩, ⟨0, 1, 1⟩]⟩ ]

/-- `ROTATION_DURATION = 200` ms. -/
def ROTATION_DURATION : ℚ := 200

/-- The committed/discrete state of a `BlockObject`.  Purely visual fields
(meshes, edges, the temporary `animPivotGroup` wrapper, quaternion slerp
endpoints) are omitted: they are rebuilt from `cells` when an orientation
animation completes and never feed back into committed state.  `position` is
`this.position`; times are wall-clock milliseconds (`performance.now()`). -/
@[ext]
structure BlockObject where
  blockId : ℕ
  cells : List Z3
  position : Q3
  selected : Bool
  isAnimating : Bool
  animStartTime : ℚ
  pendingCells : Option (List Z3)
  posAnimating : Bool
  posAnimStartPos : Option Q3
  posAnimTargetPos : Option Q3
  posAnimPivot : Option Q3
  posAnimAxis : Option Axis
  posAnimStartTime : ℚ
deriving DecidableEq, Repr

instance : Inhabited BlockObject :=
  ⟨⟨0, [], ⟨0, 0, 0⟩, false, false, 0, none, false, none, none, none, none, 0⟩⟩

/-- The `BlockObject` constructor: copy the definition's cells, default
(origin) position, no animation in flight. -/
def BlockObject.ofDef (d : BlockDefinition) : BlockObject :=
  ⟨d.id, d.cells, ⟨0, 0, 0⟩, false, false, 0, none, false, none, none, none, none, 0⟩

/-- `BlockObject.snapToGrid`: round each coordinate, clamping y at 0. -/
def BlockObject.snapToGrid (b : BlockObject) : BlockObject :=
  { b with position :=
      ⟨(round b.position.x : ℤ), (max 0 (round b.position.y) : ℤ),
        (round b.position.z : ℤ)⟩ }

/-- The `animating` getter: orientation or position animation in flight. -/
def BlockObject.animating (b : BlockObject) : Bool :=
  b.isAnimating || b.posAnimating

/-- `BlockObject.getWorldCellPositions`: `round(position + cell)` per
coordinate for each cell. -/
def BlockObject.getWorldCellPositions (b : BlockObject) : List Z3 :=
  b.cells.map (fun c => roundQ3 (b.position + c.toQ))

/-- `BlockObject.animatePositionTo` (pivot and axis optional). -/
def BlockObject.animatePositionTo (b : BlockObject) (target : Q3)
    (pivot : Option Q3) (axis : Option Axis) (now : ℚ) : BlockObject :=
  { b with
    posAnimStartPos := some b.position
    posAnimTargetPos := some target
    posAnimPivot := pivot
    posAnimAxis := axis
    posAnimStartTime := now
    posAnimating := true }

/-- `BlockObject.rotateBlock`: refuse while an orientation animation is in
flight; otherwise record the post-rotation cell list (`pendingCells`) and
start the orientation animation.  The visual pivot-group wrapping is
presentation-only and omitted. -/
def BlockObject.rotateBlock (b : BlockObject) (a : Axis) (now : ℚ) : BlockObject :=
  if b.isAnimating then b
  else
    { b with
      pendingCells := some (b.cells.map (cellRot a))
      animStartTime := now
      isAnimating := true }

/-- `BlockObject.updateAnimation`, sampled at wall-clock time `now`.
`interp` is the eased mid-flight position sample (an arc around
`posAnimPivot`/`posAnimAxis` when given, else a linear interpolation); its
exact value involves transcendental easing and is supplied as an oracle — no
theorem below reads a mid-flight position.  A phase completes when
`elapsed / ROTATION_DURATION ≥ 1`; completion writes the target position
exactly (`position.copy(posAnimTargetPos)`) and commits `pendingCells`. -/
def BlockObject.updateAnimation (b : BlockObject) (now : ℚ) (interp : Q3) :
    BlockObject :=
  let b1 :=
    if b.posAnimating ∧ b.posAnimStartPos.isSome ∧ b.posAnimTargetPos.isSome then
      if ROTATION_DURATION ≤ now - b.posAnimStartTime then
        { b with
          position := b.posAnimTargetPos.getD b.position
          posAnimating := false
          posAnimStartPos := none
          posAnimTargetPos := none
          posAnimPivot := none
          posAnimAxis := none }
      else { b with position := interp }
    else b
  if b1.isAnimating then
    if ROTATION_DURATION ≤ now - b1.animStartTime then
      { b1 with
        isAnimating := false
        cells := b1.pendingCells.getD b1.cells
        pendingCells := none }
    else b1
  else b1

/-! ## Adjacency and connectivity (`InteractionManager.areAdjacent`,
`InteractionManager.findConnectedBlocks`) -/

/-- `areAdjacent`: some cell of `a` and some cell of `b` are at Manhattan
distance exactly 1 in world grid coordinates. -/
def areAdjacent (a b : BlockObject) : Bool :=
  a.getWorldCellPositions.any fun ca =>
    b.getWorldCellPositions.any fun cb =>
      (ca.x - cb.x).natAbs + (ca.y - cb.y).natAbs + (ca.z - cb.z).natAbs = 1

/-- One round of the `while (queue.length > 0)` loop of `findConnectedBlocks`,
with block identity embedded as list index (distinct array slots are distinct
objects in the source).  The inner `for (const other of this.blocks)` adds, in
block-list order, every still-unvisited block adjacent to `current` to both
the visited set and the back of the queue; since each candidate index is
examined once per round, the mid-loop growth of `visited` never affects a
later test in the same round, so the batch `filter` is an exact model.
`fuel` bounds the rounds; `findConnectedBlocks` passes enough for the loop to
drain the queue (proved below). -/
def findConnectedAux (blocks : List BlockObject) :
    ℕ → List ℕ → List ℕ → List ℕ
  | 0, _, visited => visited
  | _ + 1, [], visited => visited
  | fuel + 1, current :: queue, visited =>
    let fresh := (List.range blocks.length).filter fun other =>
      !visited.contains other &&
        areAdjacent (blocks.getD current default) (blocks.getD other default)
    findConnectedAux blocks fuel (queue ++ fresh) (visited ++ fresh)

/-- `findConnectedBlocks(block)`: breadth-first traversal from the seed over
the block list, following `areAdjacent` edges; returns the visited set (in
insertion order, as `Array.from(visited)` does). -/
def findConnectedBlocks (blocks : List BlockObject) (seed : ℕ) : List ℕ :=
  findConnectedAux blocks (blocks.length + 1) [seed] [seed]

/-! ## Collision detection (`InteractionManager.detectCollisions`) -/

/-- `cellMap.get(key)!.push(id)` with insert-on-miss: the assoc-list model of
the string-keyed `Map` from integer cell to occupying block ids. -/
def insertCell (m : List (Z3 × List ℕ)) (key : Z3) (id : ℕ) :
    List (Z3 × List ℕ) :=
  match m with
  | [] => [(key, [id])]
  | (k, ids) :: rest =>
    if k = key then (k, ids ++ [id]) :: rest
    else (k, ids) :: insertCell rest key id

/-- The first loop of `detectCollisions`: for each block, for each world cell,
record the block's id under that cell's key. -/
def buildCellMap (blocks : List BlockObject) : List (Z3 × List ℕ) :=
  blocks.foldl
    (fun m b =>
      b.getWorldCellPositions.foldl (fun m c => insertCell m c b.blockId) m)
    []

/-- `detectCollisions`: every key occupied by more than one entry contributes
all its ids to the result set. -/
def detectCollisions (blocks : List BlockObject) : Finset ℕ :=
  (((buildCellMap blocks).filter fun e => 1 < e.2.length).flatMap
    fun e => e.2).toFinset

/-! ## Group rotation (`InteractionManager.rotateGroup`) -/

/-- Running minimum against an initial `Infinity` (`none`). -/
def qmin : Option ℚ → ℚ → Option ℚ
  | none, y => some y
  | some m, y => if y < m then some y else some m

/-- First loop of `rotateGroup`: per-member target positions (center keeps its
position; others get `pivot + round(rotateByQuaternion(memberPos − pivot))`)
and the minimum world-Y over every member's rotated cells
(`newPos.y + Math.round(v.y)`).  The `Map<BlockObject, Vector3>` is modelled
as an assoc list keyed by block index. -/
def rotationTargets (blocks : List BlockObject) (group : List ℕ)
    (center : ℕ) (a : Axis) : List (ℕ × Q3) × Option ℚ :=
  let pivot := (blocks.getD center default).position
  group.foldl
    (fun acc i =>
      let b := blocks.getD i default
      let newPos : Q3 :=
        if i = center then b.position
        else pivot + (roundQ3 (rotQ a (b.position - pivot))).toQ
      let m := b.cells.foldl
        (fun m cell => qmin m (newPos.y + ((roundQ3 (rotQ a cell.toQ)).y : ℚ)))
        acc.2
      (acc.1 ++ [(i, newPos)], m))
    ([], none)

/-- Assoc lookup for the target map (`targetPositions.get(block)!`). -/
def lookupTarget (m : List (ℕ × Q3)) (i : ℕ) : Q3 :=
  ((m.find? fun e => e.1 = i).map fun e => e.2).getD ⟨0, 0, 0⟩

/-- Second loop of `rotateGroup`: rotate each member's cells (orientation
animation) and, after lifting the target by the uniform `yOffset`, start a
position animation around the pivot for members whose target differs from
their current position. -/
def applyGroupRotation (blocks : List BlockObject) (group : List ℕ)
    (targets : List (ℕ × Q3)) (yOffset : ℚ) (pivot : Q3) (a : Axis)
    (now : ℚ) : List BlockObject :=
  group.foldl
    (fun bl i =>
      let b := (bl.getD i default).rotateBlock a now
      let pos0 := lookupTarget targets i
      let pos : Q3 := ⟨pos0.x, pos0.y + yOffset, pos0.z⟩
      let b := if pos = b.position then b
        else b.animatePositionTo pos (some pivot) (some a) now
      bl.set i b)
    blocks

/-! ## InteractionManager state and pointer-event machine -/

/-- The fixed click/drag disambiguation threshold in device pixels. -/
def mouseMoveThreshold : ℚ := 3

/-- The mutable state of `InteractionManager` that the claims concern.  Block
identity is list index (the source identifies blocks by object reference;
distinct array slots are distinct objects).  Purely visual state (ring
highlight, cursor, `DragPlaneHelper`, gizmo world position) and the host
callbacks (`onSelectChange`, `onCollisionChange`, `lastCollidingIdsStr`,
`controls.enabled`) are omitted — nothing the claims mention reads them.
The drag plane and gizmo plane are camera-dependent geometry consumed only by
the ray-cast oracles, so only their non-nullness is tracked (the plane exists
exactly while the corresponding drag is active). -/
@[ext]
structure IMState where
  blocks : List BlockObject
  selectedGroup : List ℕ
  centerBlock : Option ℕ
  mouseDownPos : ℚ × ℚ
  pendingBlock : Option ℕ
  hasMovedPastThreshold : Bool
  isDragging : Bool
  dragTarget : Option ℕ
  dragOffset : Q3
  dragTargetStartPos : Q3
  groupDragStartPositions : List (ℕ × Q3)
  isGroupDrag : Bool
  gizmoVisible : Bool
  isGizmoDragging : Bool
  gizmoDragAxis : Option Axis
  gizmoDragStartAngle : ℚ
  gizmoAccumulatedAngle : ℚ
deriving DecidableEq, Repr

/-- `rotateGroup(axis)`: no-op without a center block or while any member
animates; otherwise compute targets, lift the whole group if the rotated
minimum world-Y is negative (`Infinity` compares `< 0` false), and run the
two per-member animation starts. -/
def IMState.rotateGroup (s : IMState) (a : Axis) (now : ℚ) : IMState :=
  match s.centerBlock with
  | none => s
  | some centerIdx =>
    if s.selectedGroup.any fun i => (s.blocks.getD i default).animating then s
    else
      let pivot := (s.blocks.getD centerIdx default).position
      let tm := rotationTargets s.blocks s.selectedGroup centerIdx a
      let yOffset : ℚ :=
        match tm.2 with
        | some m => if m < 0 then -m else 0
        | none => 0
      { s with
        blocks :=
          applyGroupRotation s.blocks s.selectedGroup tm.1 yOffset pivot a now }

/-- Set the `selected` flag on each listed block. -/
def setSelectedAll (blocks : List BlockObject) (idxs : List ℕ) (v : Bool) :
    List BlockObject :=
  idxs.foldl (fun bl i => bl.set i { bl.getD i default with selected := v }) blocks

/-- `selectGroupWithCenter`: clear the previous highlight, install the new
group and center, highlight it, show the gizmo. -/
def IMState.selectGroupWithCenter (s : IMState) (group : List ℕ) (center : ℕ) :
    IMState :=
  let bl := setSelectedAll s.blocks s.selectedGroup false
  let bl := setSelectedAll bl group true
  { s with
    blocks := bl
    selectedGroup := group
    centerBlock := some center
    gizmoVisible := true }

/-- `deselectAll`: clear highlight, empty the group, hide the gizmo. -/
def IMState.deselectAll (s : IMState) : IMState :=
  { s with
    blocks := setSelectedAll s.blocks s.selectedGroup false
    selectedGroup := []
    centerBlock := none
    gizmoVisible := false }

/-- `resetPointerState`. -/
def IMState.resetPointerState (s : IMState) : IMState :=
  { s with
    pendingBlock := none
    hasMovedPastThreshold := false
    isDragging := false
    isGroupDrag := false
    dragTarget := none
    groupDragStartPositions := [] }

/-- `startDrag(block)`: record drag target, group membership and start
positions, hide the gizmo, and store `offset = position − intersect` where
`intersect` is the press-ray/drag-plane intersection (a missed ray leaves the
zero-initialised vector, hence `getD ⟨0,0,0⟩`). -/
def IMState.startDrag (s : IMState) (i : ℕ) (intersect : Option Q3) : IMState :=
  let b := s.blocks.getD i default
  let isGroup := s.selectedGroup.contains i
  let starts :=
    if isGroup then
      s.selectedGroup.map fun j => (j, (s.blocks.getD j default).position)
    else []
  { s with
    isDragging := true
    dragTarget := some i
    gizmoVisible := false
    isGroupDrag := isGroup
    dragTargetStartPos := b.position
    groupDragStartPositions := starts
    dragOffset := b.position - intersect.getD ⟨0, 0, 0⟩ }

/-- `while (delta > π) delta -= 2π; while (delta < −π) delta += 2π` — angles
are measured in units of π throughout (so ±π is ±1 and the commit threshold
π/4 is 1/4).  Both the current and the previous sample come from `atan2`, so
the difference lies in (−2π, 2π) and each loop body runs at most once; the
single conditional is the exact unrolling on that range. -/
def wrapDelta (d : ℚ) : ℚ :=
  if 1 < d then d - 2 else if d < -1 then d + 2 else d

/-- Group drag update: apply the snapped integer delta to every member's
start position, clamping each y at 0. -/
def applyGroupDragDelta (blocks : List BlockObject) (group : List ℕ)
    (starts : List (ℕ × Q3)) (delta : Q3) : List BlockObject :=
  group.foldl
    (fun bl j =>
      let startPos := ((starts.find? fun e => e.1 = j).map fun e => e.2).getD ⟨0, 0, 0⟩
      bl.set j
        { bl.getD j default with
          position :=
            ⟨startPos.x + delta.x, max 0 (startPos.y + delta.y),
              startPos.z + delta.z⟩ })
    blocks

/-- `onPointerDown` (button 0).  `ringHit` is the gizmo-ring ray-cast oracle:
the ring's axis together with `getAngleOnPlane` of the press intersection
(in units of π, the `atan2` range (−π, π]).  `blockHit` is the cell-mesh
ray-cast oracle resolved to a block index. -/
def IMState.onPointerDown (s : IMState) (cx cy : ℚ)
    (ringHit : Option (Axis × ℚ)) (blockHit : Option ℕ) : IMState :=
  let s := { s with mouseDownPos := (cx, cy) }
  let blockCheck : IMState → IMState := fun s =>
    match blockHit with
    | some i => { s with pendingBlock := some i, hasMovedPastThreshold := false }
    | none => s
  if s.gizmoVisible ∧ s.centerBlock.isSome then
    match ringHit with
    | some (ax, angle0) =>
      { s with
        isGizmoDragging := true
        gizmoDragAxis := some ax
        gizmoDragStartAngle := angle0
        gizmoAccumulatedAngle := 0 }
    | none => blockCheck s
  else blockCheck s

/-- `onPointerMove`.  `gizmoAngle` is the oracle for `getAngleOnPlane` of the
move-ray/gizmo-plane intersection (`none` = the ray missed the plane);
`dragIntersect` is the move-ray/drag-plane intersection oracle, used both for
the `startDrag` offset when the threshold is crossed and for the drag update
in the same event. -/
def IMState.onPointerMove (s : IMState) (now cx cy : ℚ)
    (gizmoAngle : Option ℚ) (dragIntersect : Option Q3) : IMState :=
  if s.isGizmoDragging ∧ s.gizmoDragAxis.isSome ∧ s.centerBlock.isSome then
    match gizmoAngle with
    | none => s
    | some cur =>
      let ax := s.gizmoDragAxis.getD Axis.xp
      let delta := wrapDelta (cur - s.gizmoDragStartAngle)
      let acc := s.gizmoAccumulatedAngle + delta
      let s := { s with gizmoAccumulatedAngle := acc, gizmoDragStartAngle := cur }
      if 1 / 4 ≤ |acc| then
        let rotAxis := if 0 < acc then ax else ax.neg
        let s := s.rotateGroup rotAxis now
        { s with gizmoAccumulatedAngle := 0 }
      else s
  else
    let s :=
      if s.pendingBlock.isSome ∧ ¬s.hasMovedPastThreshold ∧ ¬s.isDragging then
        let dx := cx - s.mouseDownPos.1
        let dy := cy - s.mouseDownPos.2
        if mouseMoveThreshold ^ 2 ≤ dx * dx + dy * dy then
          ({ s with hasMovedPastThreshold := true }).startDrag
            (s.pendingBlock.getD 0) dragIntersect
        else s
      else s
    if s.isDragging ∧ s.dragTarget.isSome then
      match dragIntersect with
      | none => s
      | some ipt =>
        let newPos := ipt + s.dragOffset
        let snapped : Z3 :=
          ⟨round newPos.x, max 0 (round newPos.y), round newPos.z⟩
        if s.isGroupDrag then
          let delta := snapped.toQ - s.dragTargetStartPos
          { s with
            blocks :=
              applyGroupDragDelta s.blocks s.selectedGroup
                s.groupDragStartPositions delta }
        else
          let i := s.dragTarget.getD 0
          { s with
            blocks :=
              s.blocks.set i
                { s.blocks.getD i default with position := snapped.toQ } }
    else s

/-- `onPointerUp` (button 0).  `upRingHit`/`upBlockHit` are the ray-cast
oracles of the empty-space-click re-test at the release position. -/
def IMState.onPointerUp (s : IMState) (cx cy : ℚ)
    (upRingHit upBlockHit : Bool) : IMState :=
  if s.isGizmoDragging then
    { s with isGizmoDragging := false, gizmoDragAxis := none }
  else if s.isDragging then
    let bl :=
      if s.isGroupDrag then
        s.selectedGroup.foldl (fun bl j => bl.set j (bl.getD j default).snapToGrid)
          s.blocks
      else
        match s.dragTarget with
        | some i => s.blocks.set i (s.blocks.getD i default).snapToGrid
        | none => s.blocks
    let s := { s with blocks := bl, isDragging := false }
    let s := if s.centerBlock.isSome then { s with gizmoVisible := true } else s
    s.resetPointerState
  else if s.pendingBlock.isSome ∧ ¬s.hasMovedPastThreshold then
    let i := s.pendingBlock.getD 0
    let s :=
      if s.centerBlock ≠ some i then
        s.selectGroupWithCenter (findConnectedBlocks s.blocks i) i
      else s
    s.resetPointerState
  else if s.pendingBlock.isNone then
    let dx := cx - s.mouseDownPos.1
    let dy := cy - s.mouseDownPos.2
    if dx * dx + dy * dy < mouseMoveThreshold ^ 2 then
      if s.gizmoVisible ∧ upRingHit then s.resetPointerState
      else if ¬upBlockHit then s.deselectAll.resetPointerState
      else s.resetPointerState
    else s.resetPointerState
  else s.resetPointerState

/-- `onDblClick`: isolate the hit block as a one-member group and center. -/
def IMState.onDblClick (s : IMState) (blockHit : Option ℕ) : IMState :=
  match blockHit with
  | none => s
  | some i =>
    let bl := setSelectedAll s.blocks s.selectedGroup false
    let bl := setSelectedAll bl [i] true
    { s with
      blocks := bl
      selectedGroup := [i]
      centerBlock := some i
      gizmoVisible := true }

/-- `selectBlockById`: first block with the id (unknown id = no-op). -/
def IMState.selectBlockById (s : IMState) (id : ℕ) : IMState :=
  match s.blocks.findIdx? (fun b => b.blockId = id) with
  | some i => s.selectGroupWithCenter (findConnectedBlocks s.blocks i) i
  | none => s

/-- `flipBlock`: the camera-relative direction is resolved to the nearest
cardinal axis by the caller's geometry, which enters here as the oracle `a`;
empty selection or an animating member refuses the flip. -/
def IMState.flipBlock (s : IMState) (a : Axis) (now : ℚ) : IMState :=
  if s.selectedGroup.isEmpty ∨ s.centerBlock.isNone then s
  else if s.selectedGroup.any fun i => (s.blocks.getD i default).animating then s
  else s.rotateGroup a now

/-- The per-frame `update()`: advance every block's animation in list order.
(The subsequent gizmo re-position is visual; `checkCollisions` only caches
the last emitted id string and fires a host callback — neither touches any
block or selection state.) -/
def IMState.tick (s : IMState) (now : ℚ) (interp : ℕ → Q3) : IMState :=
  { s with
    blocks :=
      (List.range s.blocks.length).foldl
        (fun bl i => bl.set i ((bl.getD i default).updateAnimation now (interp i)))
        s.blocks }

/-- One host event, with its ray-cast / camera oracle data. -/
inductive Event where
  | pointerDown (cx cy : ℚ) (ringHit : Option (Axis × ℚ)) (blockHit : Option ℕ)
  | pointerMove (now cx cy : ℚ) (gizmoAngle : Option ℚ) (dragIntersect : Option Q3)
  | pointerUp (cx cy : ℚ) (upRingHit upBlockHit : Bool)
  | dblClick (blockHit : Option ℕ)
  | selectById (id : ℕ)
  | flip (a : Axis) (now : ℚ)
  | tick (now : ℚ) (interp : ℕ → Q3)

/-- Dispatch one event. -/
def step (s : IMState) : Event → IMState
  | .pointerDown cx cy ringHit blockHit => s.onPointerDown cx cy ringHit blockHit
  | .pointerMove now cx cy ga di => s.onPointerMove now cx cy ga di
  | .pointerUp cx cy ur ub => s.onPointerUp cx cy ur ub
  | .dblClick bh => s.onDblClick bh
  | .selectById id => s.selectBlockById id
  | .flip a now => s.flipBlock a now
  | .tick now interp => s.tick now interp

/-- Run a sequence of events. -/
def run (s : IMState) (es : List Event) : IMState :=
  es.foldl step s

/-- Session start (`GameScene.vue`): one block per catalog entry, placed at
its start position and snapped to the grid. -/
def initBlocks (defs : List BlockDefinition) (starts : List Q3) :
    List BlockObject :=
  (List.range defs.length).map fun i =>
    ({ BlockObject.ofDef (defs.getD i default) with
        position := starts.getD i ⟨0, 0, 0⟩ }).snapToGrid

/-- The interaction manager's constructor state: nothing selected, no gesture
in flight, gizmo hidden. -/
def initState (defs : List BlockDefinition) (starts : List Q3) : IMState :=
  { blocks := initBlocks defs starts
    selectedGroup := []
    centerBlock := none
    mouseDownPos := (0, 0)
    pendingBlock := none
    hasMovedPastThreshold := false
    isDragging := false
    dragTarget := none
    dragOffset := ⟨0, 0, 0⟩
    dragTargetStartPos := ⟨0, 0, 0⟩
    groupDragStartPositions := []
    isGroupDrag := false
    gizmoVisible := false
    isGizmoDragging := false
    gizmoDragAxis := none
    gizmoDragStartAngle := 0
    gizmoAccumulatedAngle := 0 }

/-! ## Specification-side helper definitions used by the theorems -/

/-- The bucket of a cell key in the assoc-list map (`cellMap.get(key)`,
`[]` when absent). -/
def bucket : List (Z3 × List ℕ) → Z3 → List ℕ
  | [], _ => []
  | (k, ids) :: rest, key => if k = key then ids else bucket rest key

/-- The ids recorded under cell `c`, in block order, one entry per occurrence
of `c` among a block's world cells. -/
def occupantsAt (blocks : List BlockObject) (c : Z3) : List ℕ :=
  blocks.flatMap fun b =>
    (b.getWorldCellPositions.filter fun w => w = c).map fun _ => b.blockId

/-- Face-adjacency on block indices. -/
def adjRel (blocks : List BlockObject) (i j : ℕ) : Prop :=
  i < blocks.length ∧ j < blocks.length ∧
    areAdjacent (blocks.getD i default) (blocks.getD j default) = true

/-- Reachability under face-adjacency: `j` is in the connected component of
`i`. -/
def Reaches (blocks : List BlockObject) (i j : ℕ) : Prop :=
  Relation.ReflTransGen (adjRel blocks) i j

/-- The pre-floor-clamp rotation target of member `i`: the center keeps its
position, every other member moves to
`pivot + round(rotateByQuaternion(memberPos − pivot))`. -/
def rtTarget (blocks : List BlockObject) (center : ℕ) (a : Axis) (i : ℕ) : Q3 :=
  let pivot := (blocks.getD center default).position
  if i = center then (blocks.getD i default).position
  else pivot + (roundQ3 (rotQ a ((blocks.getD i default).position - pivot))).toQ

/-- The minimum world-Y over the rotated cells of the entire group
(`Infinity` = `none` for a group without cells). -/
def rtMinY (blocks : List BlockObject) (group : List ℕ) (center : ℕ)
    (a : Axis) : Option ℚ :=
  (group.flatMap fun i =>
      (blocks.getD i default).cells.map fun cell =>
        (rtTarget blocks center a i).y + ((rot90 a cell).y : ℚ)).foldl
    qmin none

/-- The uniform floor lift applied to every member's target. -/
def rgYOffset (blocks : List BlockObject) (group : List ℕ) (center : ℕ)
    (a : Axis) : ℚ :=
  match rtMinY blocks group center a with
  | some m => if m < 0 then -m else 0
  | none => 0

/-- The floor-adjusted target position of member `i`. -/
def rgAdjTarget (blocks : List BlockObject) (group : List ℕ) (center : ℕ)
    (a : Axis) (i : ℕ) : Q3 :=
  let t := rtTarget blocks center a i
  ⟨t.x, t.y + rgYOffset blocks group center a, t.z⟩

/-- The gizmo-visibility invariant the source maintains: the gizmo is shown
exactly while a center block is selected and no block drag is in progress
(`startDrag` hides it, drag end re-shows it at the center). -/
def GizmoInv (s : IMState) : Prop :=
  s.gizmoVisible = (s.centerBlock.isSome && !s.isDragging)

/-- A state with no gesture and no animation in flight (the state between
completed interactions). -/
def NoGesture (s : IMState) : Prop :=
  s.isDragging = false ∧ s.isGizmoDragging = false ∧ s.pendingBlock = none ∧
    ∀ b ∈ s.blocks, b.animating = false

/-- An event admissible inside a press–release window whose pointer stays
within the click threshold of the press point `(cx, cy)`: a pointer move whose
displacement from the press is under 3 device pixels, or a render tick. -/
def WindowEvent (cx cy : ℚ) : Event → Prop
  | .pointerMove _ cx' cy' _ _ =>
    (cx' - cx) * (cx' - cx) + (cy' - cy) * (cy' - cy) <
      mouseMoveThreshold ^ 2
  | .tick _ _ => True
  | _ => False

/-- Three single-cell blocks in a row along x (the C3 witness scenario:
0 and 1 touch, 1 and 2 touch, 0 and 2 do not). -/
def chainBlocks : List BlockObject :=
  [{ BlockObject.ofDef ⟨7, [⟨0, 0, 0⟩]⟩ with position := ⟨0, 0, 0⟩ },
    { BlockObject.ofDef ⟨7, [⟨0, 0, 0⟩]⟩ with position := ⟨1, 0, 0⟩ },
    { BlockObject.ofDef ⟨7, [⟨0, 0, 0⟩]⟩ with position := ⟨2, 0, 0⟩ }]

/-- A block's committed cell count is `n` and any pending (mid-rotation) cell
list also has `n` entries. -/
def BlockLenOK (n : ℕ) (b : BlockObject) : Prop :=
  b.cells.length = n ∧ ∀ pc ∈ b.pendingCells, pc.length = n

/-- Every block slot of the state satisfies `BlockLenOK` for its assigned
count (out-of-range slots read the default block, count 0). -/
def StateLenOK (n : ℕ → ℕ) (s : IMState) : Prop :=
  ∀ i, BlockLenOK (n i) (s.blocks.getD i default)

/-! ### Concrete scenario data -/

/-- Scenario block A (claim C2): id 0 at the origin. -/
def scenarioBlockA : BlockObject :=
  { BlockObject.ofDef ⟨0, [⟨0, 0, 0⟩, ⟨-1, 0, 0⟩, ⟨0, 0, 1⟩]⟩ with
      position := ⟨0, 0, 0⟩ }

/-- Scenario block B (claim C2): id 1 at world `(1,0,0)` with the same local
cells. -/
def scenarioBlockB : BlockObject :=
  { BlockObject.ofDef ⟨1, [⟨0, 0, 0⟩, ⟨-1, 0, 0⟩, ⟨0, 0, 1⟩]⟩ with
      position := ⟨1, 0, 0⟩ }

/-- A session start with only catalog block 0 placed at the origin. -/
def soloStart : IMState :=
  initState [⟨0, [⟨0, 0, 0⟩, ⟨-1, 0, 0⟩, ⟨0, 0, 1⟩]⟩] [⟨0, 0, 0⟩]

/-- Click block 0 (select it), rotate it 90° about +X via the gizmo (the
floor clamp lifts it to y = 1 because the rotated shape has a cell at local
y = −1), let the animation complete, then drag it back down one unit and
release.  Every step is an ordinary completed gesture. -/
def floorBreakTrace : List Event :=
  [ .pointerDown 0 0 none (some 0),
    .pointerUp 0 0 false true,
    .pointerDown 0 0 (some (.xp, 0)) none,
    .pointerMove 1000 0 0 (some (1 / 2)) none,
    .tick 1300 (fun _ => ⟨0, 0, 0⟩),
    .pointerUp 0 0 false false,
    .pointerDown 0 0 none (some 0),
    .pointerMove 2100 10 0 none (some ⟨5, 5, 5⟩),
    .pointerMove 2200 10 0 none (some ⟨5, 4, 5⟩),
    .pointerUp 10 0 false false ]

/-- Select block 0 by click, then rotate it about +Y through a gizmo press
and a pointer move whose displacement from the press point is only 2 device
pixels (the gizmo path never consults the 3-pixel threshold), and let a tick
complete the rotation before the release. -/
def gizmoClickTrace : List Event :=
  [ .pointerDown 0 0 none (some 0),
    .pointerUp 0 0 false true,
    .pointerDown 0 0 (some (.yp, 0)) none,
    .pointerMove 1000 2 0 (some (1 / 2)) none,
    .tick 1300 (fun _ => ⟨0, 0, 0⟩),
    .pointerUp 2 0 false false ]

/-- Select block 0 by click, then press it again and move 10 pixels: the
drag starts and `startDrag` hides the gizmo while the center block is still
selected. -/
def dragHidesGizmoTrace : List Event :=
  [ .pointerDown 0 0 none (some 0),
    .pointerUp 0 0 false true,
    .pointerDown 0 0 none (some 0),
    .pointerMove 1000 10 0 none (some ⟨5, 5, 5⟩) ]

/-- An orientation-animating one-cell block in a one-member selection. -/
def animBlock : BlockObject :=
  ⟨0, [⟨0, 0, 0⟩], ⟨0, 0, 0⟩, false, true, 0, some [⟨0, 0, 0⟩], false, none,
    none, none, none, 0⟩

/-- A state whose single selected block is animating. -/
def animState : IMState :=
  { initState [⟨0, [⟨0, 0, 0⟩]⟩] [⟨0, 0, 0⟩] with
      blocks := [animBlock]
      selectedGroup := [0]
      centerBlock := some 0
      gizmoVisible := true }

/-- A mid-gizmo-drag state over the solo block: +Y ring grabbed at reference
angle 0 with an empty accumulator. -/
def gizmoDragState : IMState :=
  { soloStart with
      selectedGroup := [0]
      centerBlock := some 0
      gizmoVisible := true
      isGizmoDragging := true
      gizmoDragAxis := some Axis.yp }

/-- The per-member body of `applyGroupRotation`'s loop, as a function of the
member's index and current state: rotate the cells, lift the target, start a
position animation when the target differs. -/
def rgTransform (targets : List (ℕ × Q3)) (yOffset : ℚ) (pivot : Q3)
    (a : Axis) (now : ℚ) (i : ℕ) (b : BlockObject) : BlockObject :=
  let b' := b.rotateBlock a now
  let pos0 := lookupTarget targets i
  let pos : Q3 := ⟨pos0.x, pos0.y + yOffset, pos0.z⟩
  if pos = b'.position then b' else b'.animatePositionTo pos (some pivot) (some a) now

/-- Catalog block id 2 placed at the origin, selected alone as its own
center (the C6 scenario). -/
def scenario2State : IMState :=
  { initState [⟨2, [⟨0, 0, 0⟩, ⟨-1, 0, 0⟩, ⟨1, 0, 0⟩, ⟨1, 0, 1⟩]⟩] [⟨0, 0, 0⟩] with
      selectedGroup := [0]
      centerBlock := some 0
      gizmoVisible := true }

/-! ### Intermediate states of the concrete traces -/

/-- Catalog block 0 as constructed at session start. -/
def b0 : BlockObject :=
  ⟨0, [⟨0, 0, 0⟩, ⟨-1, 0, 0⟩, ⟨0, 0, 1⟩], ⟨0, 0, 0⟩, false, false, 0, none,
    false, none, none, none, none, 0⟩

/-- The solo session start, written out. -/
def soloStartL : IMState :=
  { blocks := [b0], selectedGroup := [], centerBlock := none,
    mouseDownPos := (0, 0), pendingBlock := none,
    hasMovedPastThreshold := false, isDragging := false, dragTarget := none,
    dragOffset := ⟨0, 0, 0⟩, dragTargetStartPos := ⟨0, 0, 0⟩,
    groupDragStartPositions := [], isGroupDrag := false,
    gizmoVisible := false, isGizmoDragging := false, gizmoDragAxis := none,
    gizmoDragStartAngle := 0, gizmoAccumulatedAngle := 0 }

/-- After pressing on block 0. -/
def pressS : IMState := { soloStartL with pendingBlock := some 0 }

/-- After releasing the click: block 0 selected as center, gizmo shown. -/
def selS : IMState :=
  { soloStartL with
      blocks := [{ b0 with selected := true }]
      selectedGroup := [0]
      centerBlock := some 0
      gizmoVisible := true }

/-- After pressing on block 0 again (selected state). -/
def selPressS : IMState := { selS with pendingBlock := some 0 }

/-- After the 10-pixel move: dragging, gizmo hidden (the C8 counterexample
state: a center block is selected but the gizmo is not visible). -/
def dragS : IMState :=
  { selS with
      pendingBlock := some 0
      hasMovedPastThreshold := true
      isDragging := true
      dragTarget := some 0
      gizmoVisible := false
      isGroupDrag := true
      dragTargetStartPos := ⟨0, 0, 0⟩
      groupDragStartPositions := [(0, ⟨0, 0, 0⟩)]
      dragOffset := ⟨-5, -5, -5⟩ }

/-- After grabbing the +X gizmo ring at reference angle 0. -/
def rotPressS : IMState :=
  { selS with
      isGizmoDragging := true
      gizmoDragAxis := some Axis.xp
      gizmoDragStartAngle := 0
      gizmoAccumulatedAngle := 0 }

/-- After the gizmo move that commits the 90° rotation about +X: the block's
pending cells include one at local y = −1, and the group floor lift targets
position (0,1,0). -/
def rotatingS : IMState :=
  { rotPressS with
      gizmoDragStartAngle := 1 / 2
      gizmoAccumulatedAngle := 0
      blocks :=
        [⟨0, [⟨0, 0, 0⟩, ⟨-1, 0, 0⟩, ⟨0, 0, 1⟩], ⟨0, 0, 0⟩, true, true, 1000,
          some [⟨0, 0, 0⟩, ⟨-1, 0, 0⟩, ⟨0, -1, 0⟩], true, some ⟨0, 0, 0⟩,
          some ⟨0, 1, 0⟩, some ⟨0, 0, 0⟩, some Axis.xp, 1000⟩] }

/-- After the completing tick: cells committed, position lifted to y = 1. -/
def rotatedS : IMState :=
  { rotPressS with
      gizmoDragStartAngle := 1 / 2
      gizmoAccumulatedAngle := 0
      blocks :=
        [⟨0, [⟨0, 0, 0⟩, ⟨-1, 0, 0⟩, ⟨0, -1, 0⟩], ⟨0, 1, 0⟩, true, false,
          1000, none, false, none, none, none, none, 1000⟩] }

/-- After the gizmo release. -/
def rotDoneS : IMState :=
  { rotatedS with isGizmoDragging := false, gizmoDragAxis := none }

/-- After pressing the rotated block. -/
def rotPress2S : IMState := { rotDoneS with pendingBlock := some 0 }

/-- After the threshold-crossing move (drag starts at the lifted position). -/
def dragDown1S : IMState :=
  { rotPress2S with
      hasMovedPastThreshold := true
      isDragging := true
      dragTarget := some 0
      gizmoVisible := false
      isGroupDrag := true
      dragTargetStartPos := ⟨0, 1, 0⟩
      groupDragStartPositions := [(0, ⟨0, 1, 0⟩)]
      dragOffset := ⟨-5, -4, -5⟩ }

/-- After dragging one unit down: the block position is clamped at y = 0,
leaving its local-(0,−1,0) cell below the floor. -/
def dragDown2S : IMState :=
  { dragDown1S with
      blocks :=
        [⟨0, [⟨0, 0, 0⟩, ⟨-1, 0, 0⟩, ⟨0, -1, 0⟩], ⟨0, 0, 0⟩, true, false,
          1000, none, false, none, none, none, none, 1000⟩] }

/-- After the release that completes the drag.  (`resetPointerState` clears
the drag bookkeeping but not `dragOffset`/`dragTargetStartPos`, which simply
keep their last values.) -/
def dragDoneS : IMState :=
  { rotDoneS with
      dragTargetStartPos := ⟨0, 1, 0⟩
      dragOffset := ⟨-5, -4, -5⟩
      blocks :=
        [⟨0, [⟨0, 0, 0⟩, ⟨-1, 0, 0⟩, ⟨0, -1, 0⟩], ⟨0, 0, 0⟩, true, false,
          1000, none, false, none, none, none, none, 1000⟩] }

/-- After grabbing the +Y ring at reference angle 0 (C4 counterexample). -/
def yRingPressS : IMState :=
  { selS with
      isGizmoDragging := true
      gizmoDragAxis := some Axis.yp
      gizmoDragStartAngle := 0
      gizmoAccumulatedAngle := 0 }

/-- After the 2-pixel gizmo move that commits a 90° rotation about +Y: no
position change (the rotation keeps every cell at y = 0), but the pending
cell list is the rotated one. -/
def yRotatingS : IMState :=
  { yRingPressS with
      gizmoDragStartAngle := 1 / 2
      gizmoAccumulatedAngle := 0
      blocks :=
        [⟨0, [⟨0, 0, 0⟩, ⟨-1, 0, 0⟩, ⟨0, 0, 1⟩], ⟨0, 0, 0⟩, true, true, 1000,
          some [⟨0, 0, 0⟩, ⟨0, 0, 1⟩, ⟨1, 0, 0⟩], false, none, none, none,
          none, 0⟩] }

/-- After the completing tick: the committed cell list has changed even
though the pointer never moved 3 pixels. -/
def yRotatedS : IMState :=
  { yRingPressS with
      gizmoDragStartAngle := 1 / 2
      gizmoAccumulatedAngle := 0
      blocks :=
        [⟨0, [⟨0, 0, 0⟩, ⟨0, 0, 1⟩, ⟨1, 0, 0⟩], ⟨0, 0, 0⟩, true, false, 1000,
          none, false, none, none, none, none, 0⟩] }

/-- After the sub-threshold release. -/
def yDoneS : IMState :=
  { yRotatedS with isGizmoDragging := false, gizmoDragAxis := none }

/-! ## Theorems -/

/-- C5: the discrete 90° cell rotation of `rotateBlock` (axis-angle
quaternion then `Math.round`) applied four times about the same cardinal axis
restores a block's cell-offset list exactly, and a single application of the
exact rotation is already integer-valued, so the rounding is exact. -/
theorem rotation_four_times_identity (a : Axis) (cells : List Z3) (c : Z3) :
    (((cells.map (cellRot a)).map (cellRot a)).map (cellRot a)).map (cellRot a)
        = cells ∧
      rotQ a c.toQ = (cellRot a c).toQ := by
  constructor
  · have h : ∀ x : Z3, cellRot a (cellRot a (cellRot a (cellRot a x))) = x := by
      intro x
      simp [cellRot_eq_rot90, rot90_rot90_rot90_rot90]
    simp [List.map_map, Function.comp_def, h]
  · rw [rotQ_toQ, cellRot_eq_rot90]

/-- C7: a rotation is refused while a relevant animation is in flight:
`rotateBlock` on an orientation-animating block returns the block unchanged,
and `rotateGroup` with any animating group member leaves the whole
interaction state unchanged. -/
theorem rotation_refused_while_animating (b : BlockObject) (a a' : Axis)
    (now now' : ℚ) (s : IMState)
    (hb : b.isAnimating = true)
    (hs : ∃ i ∈ s.selectedGroup, (s.blocks.getD i default).animating = true) :
    b.rotateBlock a now = b ∧ s.rotateGroup a' now' = s := by
  refine ⟨by simp [BlockObject.rotateBlock, hb], ?_⟩
  have hany : (s.selectedGroup.any fun i =>
      (s.blocks.getD i default).animating) = true := by
    rw [List.any_eq_true]
    obtain ⟨i, hi, h⟩ := hs
    exact ⟨i, hi, h⟩
  unfold IMState.rotateGroup
  split
  · rfl
  · rw [if_pos hany]

theorem rotation_refused_while_animating_witness :
    animBlock.rotateBlock .xp 0 = animBlock ∧
      animState.rotateGroup .yp 5 = animState :=
  rotation_refused_while_animating animBlock .xp .yp 0 5 animState rfl
    ⟨0, by decide, by decide⟩

/-- C9 counterexample: the wrap loops leave a delta of exactly −π at −π
(previous sample π/2, current sample −π/2, both in `atan2`'s range), so the
wrapped delta is *not* in the claimed interval (−π, π]. -/
theorem gizmo_wrap_counterexample :
    wrapDelta ((-1 / 2 : ℚ) - 1 / 2) = -1 ∧
      ¬(-1 < wrapDelta ((-1 / 2 : ℚ) - 1 / 2)) := by
  norm_num [wrapDelta]

theorem rotateGroup_only_blocks (s : IMState) (a : Axis) (now : ℚ) :
    s.rotateGroup a now = { s with blocks := (s.rotateGroup a now).blocks } := by
  unfold IMState.rotateGroup
  split
  · rfl
  · split
    · rfl
    · rfl

theorem rotateGroup_update_blocks (s : IMState) (q r : ℚ) (a : Axis)
    (now : ℚ) :
    ({ s with
        gizmoAccumulatedAngle := q
        gizmoDragStartAngle := r }.rotateGroup a now).blocks =
      (s.rotateGroup a now).blocks := by
  unfold IMState.rotateGroup
  cases s.centerBlock <;> simp
  split_ifs <;> rfl

theorem onPointerMove_gizmo_branch (s : IMState) (now cx cy cur : ℚ)
    (ax : Axis) (di : Option Q3)
    (hg : s.isGizmoDragging = true) (hax : s.gizmoDragAxis = some ax)
    (hc : s.centerBlock.isSome = true) :
    s.onPointerMove now cx cy (some cur) di =
      (let acc := s.gizmoAccumulatedAngle +
        wrapDelta (cur - s.gizmoDragStartAngle)
       let s₁ : IMState :=
         { s with
             gizmoAccumulatedAngle := acc
             gizmoDragStartAngle := cur }
       if 1 / 4 ≤ |acc| then
         { (s₁.rotateGroup (if 0 < acc then ax else ax.neg) now) with
             gizmoAccumulatedAngle := 0 }
       else s₁) := by
  unfold IMState.onPointerMove
  rw [if_pos ⟨by simp [hg], by simp [hax], by simp [hc]⟩]
  simp [hax]

/-- C9 (amended): during a gizmo drag, each pointer move wraps the signed
delta from the previous sample into the *closed* interval [−π, π] (angles in
units of π here, so [−1, 1]) and adds it to the accumulator; when the
accumulated magnitude reaches π/4 the engine issues exactly one discrete 90°
rotation command (`rotateGroup`, always a quarter turn) whose axis sign is
the accumulator's sign, and resets the accumulator to exactly zero;
otherwise no rotation happens and the accumulator keeps the sum. -/
theorem gizmo_accumulator_step (s : IMState) (now cx cy cur : ℚ) (ax : Axis)
    (di : Option Q3)
    (hg : s.isGizmoDragging = true) (hax : s.gizmoDragAxis = some ax)
    (hc : s.centerBlock.isSome = true)
    (hcur₁ : -1 < cur) (hcur₂ : cur ≤ 1)
    (hprev₁ : -1 < s.gizmoDragStartAngle)
    (hprev₂ : s.gizmoDragStartAngle ≤ 1) :
    (-1 ≤ wrapDelta (cur - s.gizmoDragStartAngle) ∧
        wrapDelta (cur - s.gizmoDragStartAngle) ≤ 1) ∧
      (let acc := s.gizmoAccumulatedAngle +
        wrapDelta (cur - s.gizmoDragStartAngle)
       let s' := s.onPointerMove now cx cy (some cur) di
       if 1 / 4 ≤ |acc| then
         s'.gizmoAccumulatedAngle = 0 ∧ s'.gizmoDragStartAngle = cur ∧
           s'.blocks =
             (s.rotateGroup (if 0 < acc then ax else ax.neg) now).blocks
       else
         s'.gizmoAccumulatedAngle = acc ∧ s'.gizmoDragStartAngle = cur ∧
           s'.blocks = s.blocks) := by
  constructor
  · unfold wrapDelta
    split_ifs <;> constructor <;> linarith
  · dsimp only
    have hgoal := onPointerMove_gizmo_branch s now cx cy cur ax di hg hax hc
    dsimp only at hgoal
    by_cases hth : (1 : ℚ) / 4 ≤
        |s.gizmoAccumulatedAngle + wrapDelta (cur - s.gizmoDragStartAngle)|
    · rw [if_pos hth]
      rw [if_pos hth] at hgoal
      rw [hgoal]
      refine ⟨rfl, ?_, ?_⟩
      · conv_lhs =>
          rw [rotateGroup_only_blocks ({ s with
            gizmoAccumulatedAngle :=
              s.gizmoAccumulatedAngle + wrapDelta (cur - s.gizmoDragStartAngle)
            gizmoDragStartAngle := cur } : IMState)
            (if 0 < s.gizmoAccumulatedAngle +
              wrapDelta (cur - s.gizmoDragStartAngle) then ax else ax.neg) now]
      · exact rotateGroup_update_blocks s
          (s.gizmoAccumulatedAngle + wrapDelta (cur - s.gizmoDragStartAngle))
          cur
          (if 0 < s.gizmoAccumulatedAngle +
            wrapDelta (cur - s.gizmoDragStartAngle) then ax else ax.neg) now
    · rw [if_neg hth]
      rw [if_neg hth] at hgoal
      rw [hgoal]
      exact ⟨rfl, rfl, rfl⟩

/-! ### Collision detection: assoc-map lemmas and the C2 characterization -/

theorem bucket_insertCell (m : List (Z3 × List ℕ)) (key : Z3) (id : ℕ)
    (k : Z3) :
    bucket (insertCell m key id) k =
      if k = key then bucket m k ++ [id] else bucket m k := by
  induction m with
  | nil =>
    rcases eq_or_ne k key with h | h
    · subst h
      simp [insertCell, bucket]
    · simp [insertCell, bucket, h, h.symm]
  | cons e rest ih =>
    obtain ⟨ek, eids⟩ := e
    rcases eq_or_ne ek key with h1 | h1
    · subst h1
      rcases eq_or_ne k ek with h2 | h2
      · subst h2
        simp [insertCell, bucket]
      · simp [insertCell, bucket, h2, h2.symm]
    · rcases eq_or_ne ek k with h2 | h2
      · subst h2
        simp [insertCell, bucket, h1]
      · simp [insertCell, bucket, h1, h2, ih]

theorem bucket_cellsFold (cells : List Z3) (id : ℕ)
    (m : List (Z3 × List ℕ)) (c : Z3) :
    bucket (cells.foldl (fun m cell => insertCell m cell id) m) c =
      bucket m c ++ (cells.filter fun w => w = c).map (fun _ => id) := by
  induction cells generalizing m with
  | nil => simp
  | cons cell rest ih =>
    rw [List.foldl_cons, ih, bucket_insertCell]
    by_cases h : c = cell
    · subst h
      simp
    · simp [h, Ne.symm h]

theorem bucket_buildCellMap (blocks : List BlockObject) (c : Z3) :
    bucket (buildCellMap blocks) c = occupantsAt blocks c := by
  suffices h : ∀ m, bucket
      (blocks.foldl (fun m b =>
        b.getWorldCellPositions.foldl (fun m c => insertCell m c b.blockId) m) m) c =
      bucket m c ++ occupantsAt blocks c by
    simpa [buildCellMap, bucket] using h []
  induction blocks with
  | nil => simp [occupantsAt]
  | cons b rest ih =>
    intro m
    rw [List.foldl_cons, ih, bucket_cellsFold]
    simp [occupantsAt]

theorem mem_entry_eq_bucket (m : List (Z3 × List ℕ))
    (hk : (m.map Prod.fst).Nodup) (e : Z3 × List ℕ) (he : e ∈ m) :
    e.2 = bucket m e.1 := by
  induction m with
  | nil => cases he
  | cons f rest ih =>
    obtain ⟨fk, fids⟩ := f
    rcases List.mem_cons.mp he with h | h
    · subst h
      simp [bucket]
    · have hk' : (rest.map Prod.fst).Nodup := (List.nodup_cons.mp hk).2
      have hne : e.1 ≠ fk := by
        intro hEq
        have : fk ∈ rest.map Prod.fst := by
          rw [← hEq]
          exact List.mem_map_of_mem Prod.fst h
        exact (List.nodup_cons.mp hk).1 this
      rw [ih hk' h]
      simp [bucket, Ne.symm hne]

theorem bucket_ne_nil_mem (m : List (Z3 × List ℕ)) (k : Z3)
    (h : bucket m k ≠ []) : (k, bucket m k) ∈ m := by
  induction m with
  | nil => simp [bucket] at h
  | cons f rest ih =>
    obtain ⟨fk, fids⟩ := f
    by_cases hk : fk = k
    · subst hk
      simp [bucket]
    · rw [bucket] at h ⊢
      rw [if_neg hk] at h ⊢
      exact List.mem_cons_of_mem _ (ih h)

theorem keys_insertCell (m : List (Z3 × List ℕ)) (key : Z3) (id : ℕ) :
    (insertCell m key id).map Prod.fst =
      if key ∈ m.map Prod.fst then m.map Prod.fst
      else m.map Prod.fst ++ [key] := by
  induction m with
  | nil => simp [insertCell]
  | cons e rest ih =>
    obtain ⟨ek, eids⟩ := e
    by_cases h : ek = key
    · subst h
      simp [insertCell]
    · simp only [insertCell, if_neg h, List.map_cons, ih]
      by_cases hm : key ∈ rest.map Prod.fst <;>
        simp [hm, h, Ne.symm h]

theorem keysNodup_insertCell (m : List (Z3 × List ℕ)) (key : Z3) (id : ℕ)
    (h : (m.map Prod.fst).Nodup) :
    ((insertCell m key id).map Prod.fst).Nodup := by
  rw [keys_insertCell]
  by_cases hm : key ∈ m.map Prod.fst
  · simpa [hm]
  · simpa [hm] using List.Nodup.append h (by simp) (by simpa using hm)

theorem keysNodup_cellsFold (cells : List Z3) (id : ℕ) :
    ∀ m : List (Z3 × List ℕ), (m.map Prod.fst).Nodup →
      ((cells.foldl (fun m c => insertCell m c id) m).map Prod.fst).Nodup := by
  induction cells with
  | nil =>
    intro m hm
    simpa
  | cons c cs ih =>
    intro m hm
    rw [List.foldl_cons]
    exact ih _ (keysNodup_insertCell m c id hm)

theorem keysNodup_buildCellMap (blocks : List BlockObject) :
    ((buildCellMap blocks).map Prod.fst).Nodup := by
  suffices h : ∀ m : List (Z3 × List ℕ), (m.map Prod.fst).Nodup →
      ((blocks.foldl (fun m b =>
        b.getWorldCellPositions.foldl (fun m c => insertCell m c b.blockId) m)
          m).map Prod.fst).Nodup by
    exact h [] (by simp)
  induction blocks with
  | nil =>
    intro m hm
    simpa
  | cons b rest ih =>
    intro m hm
    rw [List.foldl_cons]
    exact ih _ (keysNodup_cellsFold _ _ m hm)

theorem mem_detectCollisions (blocks : List BlockObject) (id : ℕ) :
    id ∈ detectCollisions blocks ↔
      ∃ c, 1 < (occupantsAt blocks c).length ∧ id ∈ occupantsAt blocks c := by
  unfold detectCollisions
  rw [List.mem_toFinset, List.mem_flatMap]
  constructor
  · rintro ⟨e, he, hid⟩
    rw [List.mem_filter] at he
    obtain ⟨hmem, hlen⟩ := he
    have heb := mem_entry_eq_bucket _ (keysNodup_buildCellMap blocks) e hmem
    rw [heb, bucket_buildCellMap] at hid hlen
    exact ⟨e.1, by simpa using hlen, hid⟩
  · rintro ⟨c, hlen, hid⟩
    refine ⟨(c, occupantsAt blocks c), ?_, hid⟩
    rw [List.mem_filter]
    constructor
    · rw [← bucket_buildCellMap]
      exact bucket_ne_nil_mem _ _ (by
        rw [bucket_buildCellMap]
        intro hnil
        rw [hnil] at hlen
        simp at hlen)
    · simpa using hlen

theorem mem_occupantsAt (blocks : List BlockObject) (c : Z3) (id : ℕ) :
    id ∈ occupantsAt blocks c ↔
      ∃ b ∈ blocks, b.blockId = id ∧ c ∈ b.getWorldCellPositions := by
  unfold occupantsAt
  rw [List.mem_flatMap]
  constructor
  · rintro ⟨b, hb, hid⟩
    rw [List.mem_map] at hid
    obtain ⟨w, hw, hbid⟩ := hid
    rw [List.mem_filter] at hw
    refine ⟨b, hb, hbid, ?_⟩
    have : w = c := by simpa using hw.2
    rw [← this]
    exact hw.1
  · rintro ⟨b, hb, hbid, hc⟩
    refine ⟨b, hb, ?_⟩
    rw [List.mem_map]
    exact ⟨c, by simp [List.mem_filter, hc], hbid⟩

theorem filter_eq_singleton_of_nodup (l : List Z3) (c : Z3) (h : l.Nodup) :
    (l.filter fun w => w = c) = if c ∈ l then [c] else [] := by
  induction l with
  | nil => simp
  | cons a rest ih =>
    rw [List.nodup_cons] at h
    by_cases hac : a = c
    · subst hac
      have hnil : (rest.filter fun w => w = a) = [] := by
        rw [List.filter_eq_nil_iff]
        intro w hw
        simp only [decide_eq_true_eq]
        intro hEq
        exact h.1 (hEq ▸ hw)
      simp [hnil]
    · rw [List.filter_cons_of_neg (by simpa using hac), ih h.2]
      simp [List.mem_cons, Ne.symm hac]

theorem occupantsAt_eq_filter_map (blocks : List BlockObject) (c : Z3)
    (h : ∀ b ∈ blocks, b.getWorldCellPositions.Nodup) :
    occupantsAt blocks c =
      ((blocks.filter fun b => decide (c ∈ b.getWorldCellPositions)).map
        fun b => b.blockId) := by
  induction blocks with
  | nil => simp [occupantsAt]
  | cons b rest ih =>
    have hb := h b (by simp)
    have hrest : ∀ b' ∈ rest, b'.getWorldCellPositions.Nodup :=
      fun b' hb' => h b' (List.mem_cons_of_mem _ hb')
    unfold occupantsAt
    rw [List.flatMap_cons]
    rw [filter_eq_singleton_of_nodup _ c hb]
    by_cases hc : c ∈ b.getWorldCellPositions
    · simp only [if_pos hc]
      rw [List.filter_cons_of_pos (by simpa using hc)]
      simpa [occupantsAt] using ih hrest
    · simp only [if_neg hc]
      rw [List.filter_cons_of_neg (by simpa using hc)]
      simpa [occupantsAt] using ih hrest

theorem one_lt_length_nodup (l : List BlockObject) (h : l.Nodup) :
    1 < l.length ↔ ∃ a ∈ l, ∃ b ∈ l, a ≠ b := by
  constructor
  · intro hl
    rcases l with _ | ⟨a, _ | ⟨b, rest⟩⟩
    · simp at hl
    · simp at hl
    · refine ⟨a, by simp, b, by simp, ?_⟩
      rw [List.nodup_cons] at h
      intro hEq
      exact h.1 (by
        rw [hEq]
        exact List.mem_cons_self b rest)
  · rintro ⟨a, ha, b, hb, hab⟩
    by_contra hlen
    rcases l with _ | ⟨x, _ | ⟨y, rest⟩⟩
    · cases ha
    · rw [List.mem_singleton] at ha hb
      exact absurd (ha.trans hb.symm) hab
    · simp at hlen

/-- C2: `detectCollisions` returns exactly the ids of blocks sharing at
least one occupied world cell with another block (ids distinct, no block
occupying one cell twice — both hold throughout a session); in particular on
the scenario pair A (id 0, origin) / B (id 1 at `(1,0,0)`, same local cells)
it returns `{0, 1}`, and an isolated block never appears. -/
theorem detectCollisions_characterization (blocks : List BlockObject)
    (hids : (blocks.map fun b => b.blockId).Nodup)
    (hcells : ∀ b ∈ blocks, b.getWorldCellPositions.Nodup) :
    (∀ id, id ∈ detectCollisions blocks ↔
      ∃ b ∈ blocks, b.blockId = id ∧ ∃ b' ∈ blocks, b'.blockId ≠ b.blockId ∧
        ∃ c ∈ b.getWorldCellPositions, c ∈ b'.getWorldCellPositions) ∧
      detectCollisions [scenarioBlockA, scenarioBlockB] = {0, 1} ∧
      detectCollisions [scenarioBlockA] = ∅ := by
  have hnd : blocks.Nodup := List.Nodup.of_map _ hids
  have hinj := List.inj_on_of_nodup_map hids
  refine ⟨fun id => ?_, ?_, ?_⟩
  case refine_2 =>
    norm_num [detectCollisions, buildCellMap, insertCell, scenarioBlockA,
      scenarioBlockB, BlockObject.ofDef, BlockObject.getWorldCellPositions,
      roundQ3, Z3.toQ, round_eq]
  case refine_3 =>
    norm_num [detectCollisions, buildCellMap, insertCell, scenarioBlockA,
      BlockObject.ofDef, BlockObject.getWorldCellPositions,
      roundQ3, Z3.toQ, round_eq]
  rw [mem_detectCollisions]
  constructor
  · rintro ⟨c, hlen, hid⟩
    rw [mem_occupantsAt] at hid
    obtain ⟨b, hb, hbid, hbc⟩ := hid
    rw [occupantsAt_eq_filter_map blocks c hcells, List.length_map] at hlen
    rw [one_lt_length_nodup _ (List.Nodup.filter _ hnd)] at hlen
    obtain ⟨b₁, hb₁, b₂, hb₂, hne⟩ := hlen
    rw [List.mem_filter] at hb₁ hb₂
    rcases eq_or_ne b₁ b with h1 | h1
    · refine ⟨b, hb, hbid, b₂, hb₂.1, ?_, c, hbc, by simpa using hb₂.2⟩
      intro hEq
      exact hne (h1.trans (hinj hb₂.1 hb hEq).symm)
    · refine ⟨b, hb, hbid, b₁, hb₁.1, ?_, c, hbc, by simpa using hb₁.2⟩
      intro hEq
      exact h1 (hinj hb₁.1 hb hEq)
  · rintro ⟨b, hb, hbid, b', hb', hne, c, hbc, hb'c⟩
    refine ⟨c, ?_, ?_⟩
    · rw [occupantsAt_eq_filter_map blocks c hcells, List.length_map]
      rw [one_lt_length_nodup _ (List.Nodup.filter _ hnd)]
      refine ⟨b, ?_, b', ?_, ?_⟩
      · rw [List.mem_filter]
        exact ⟨hb, by simpa using hbc⟩
      · rw [List.mem_filter]
        exact ⟨hb', by simpa using hb'c⟩
      · intro hEq
        exact hne (by rw [hEq])
    · rw [mem_occupantsAt]
      exact ⟨b, hb, hbid, hbc⟩

theorem detectCollisions_characterization_witness :
    0 ∈ detectCollisions [scenarioBlockA, scenarioBlockB] ↔
      ∃ b ∈ [scenarioBlockA, scenarioBlockB], b.blockId = 0 ∧
        ∃ b' ∈ [scenarioBlockA, scenarioBlockB], b'.blockId ≠ b.blockId ∧
          ∃ c ∈ b.getWorldCellPositions, c ∈ b'.getWorldCellPositions :=
  (detectCollisions_characterization [scenarioBlockA, scenarioBlockB]
    (by norm_num [scenarioBlockA, scenarioBlockB, BlockObject.ofDef])
    (by
      intro b hb
      rcases List.mem_cons.mp hb with h | h
      · subst h
        norm_num [scenarioBlockA, BlockObject.ofDef,
          BlockObject.getWorldCellPositions, roundQ3, Z3.toQ]
      · rw [List.mem_singleton] at h
        subst h
        norm_num [scenarioBlockB, BlockObject.ofDef,
          BlockObject.getWorldCellPositions, roundQ3, Z3.toQ])).1 0

/-! ### Indexed-update fold lemmas -/

theorem getD_set_self (l : List BlockObject) (i : ℕ) (v : BlockObject)
    (h : i < l.length) : (l.set i v).getD i default = v := by
  simp [List.getD, List.getElem?_set_self', h]

theorem getD_set_ne (l : List BlockObject) (i j : ℕ) (v : BlockObject)
    (h : i ≠ j) : (l.set j v).getD i default = l.getD i default := by
  simp [List.getD, List.getElem?_set_ne (Ne.symm h)]

theorem length_foldl_set (f : ℕ → BlockObject → BlockObject) :
    ∀ (group : List ℕ) (blocks : List BlockObject),
      (group.foldl (fun bl j => bl.set j (f j (bl.getD j default)))
        blocks).length = blocks.length := by
  intro group
  induction group with
  | nil => intro blocks; rfl
  | cons j gr ih =>
    intro blocks
    rw [List.foldl_cons, ih]
    simp

theorem foldl_set_transform (f : ℕ → BlockObject → BlockObject) :
    ∀ (group : List ℕ) (blocks : List BlockObject), group.Nodup →
      (∀ j ∈ group, j < blocks.length) → ∀ i,
      (group.foldl (fun bl j => bl.set j (f j (bl.getD j default)))
          blocks).getD i default =
        if i ∈ group then f i (blocks.getD i default)
        else blocks.getD i default := by
  intro group
  induction group with
  | nil =>
    intro blocks _ _ i
    simp
  | cons j gr ih =>
    intro blocks hnd hlt i
    rw [List.foldl_cons]
    rw [List.nodup_cons] at hnd
    have hj : j < blocks.length := hlt j (List.mem_cons_self _ _)
    have hlt' : ∀ k ∈ gr,
        k < (blocks.set j (f j (blocks.getD j default))).length := by
      intro k hk
      simpa using hlt k (List.mem_cons_of_mem _ hk)
    rw [ih _ hnd.2 hlt' i]
    by_cases hig : i ∈ gr
    · rw [if_pos hig, if_pos (List.mem_cons_of_mem _ hig)]
      have hne : i ≠ j := fun h => hnd.1 (h ▸ hig)
      rw [getD_set_ne _ _ _ _ hne]
    · by_cases hij : i = j
      · subst hij
        rw [if_neg hig, if_pos (List.mem_cons_self _ _),
          getD_set_self _ _ _ hj]
      · rw [if_neg hig, if_neg (by simp [hij, hig]),
          getD_set_ne _ _ _ _ hij]

/-! ### Group rotation characterization lemmas -/

theorem lookupTarget_map (group : List ℕ) (t : ℕ → Q3) (i : ℕ)
    (h : i ∈ group) :
    lookupTarget (group.map fun j => (j, t j)) i = t i := by
  induction group with
  | nil => cases h
  | cons j gr ih =>
    by_cases hij : j = i
    · subst hij
      simp [lookupTarget, List.find?_cons]
    · rcases List.mem_cons.mp h with hEq | hmem
      · exact absurd hEq.symm hij
      · simp only [lookupTarget, List.map_cons, List.find?_cons,
          decide_eq_false hij]
        exact ih hmem

theorem foldl_fun_congr {α β : Type} (f g : α → β → α)
    (h : ∀ m x, f m x = g m x) :
    ∀ (l : List β) (a : α), l.foldl f a = l.foldl g a := by
  intro l
  induction l with
  | nil => intro a; rfl
  | cons x xs ih =>
    intro a
    rw [List.foldl_cons, List.foldl_cons, h, ih]

theorem rotationTargets_eq (blocks : List BlockObject) (group : List ℕ)
    (center : ℕ) (a : Axis) :
    rotationTargets blocks group center a =
      (group.map fun i => (i, rtTarget blocks center a i),
        rtMinY blocks group center a) := by
  unfold rotationTargets rtMinY
  suffices h : ∀ (acc1 : List (ℕ × Q3)) (acc2 : Option ℚ),
      group.foldl
        (fun acc i =>
          let b := blocks.getD i default
          let newPos : Q3 :=
            if i = center then b.position
            else (blocks.getD center default).position +
              (roundQ3 (rotQ a
                (b.position - (blocks.getD center default).position))).toQ
          let m := b.cells.foldl
            (fun m cell =>
              qmin m (newPos.y + ((roundQ3 (rotQ a cell.toQ)).y : ℚ)))
            acc.2
          (acc.1 ++ [(i, newPos)], m))
        (acc1, acc2) =
      (acc1 ++ group.map fun i => (i, rtTarget blocks center a i),
        (group.flatMap fun i =>
          (blocks.getD i default).cells.map fun cell =>
            (rtTarget blocks center a i).y + ((rot90 a cell).y : ℚ)).foldl
          qmin acc2) by
    simpa using h [] none
  induction group with
  | nil =>
    intro acc1 acc2
    simp
  | cons i gr ih =>
    intro acc1 acc2
    rw [List.foldl_cons, ih, Prod.mk.injEq]
    refine ⟨?_, ?_⟩
    · simp [rtTarget]
    · dsimp only
      rw [List.flatMap_cons, List.foldl_append, List.foldl_map]
      congr 1
      exact foldl_fun_congr _ _
        (fun m cell => by
          rw [show roundQ3 (rotQ a cell.toQ) = rot90 a cell from
            cellRot_eq_rot90 a cell]
          rfl) _ _

/-! ### Running-minimum fold lemmas -/

theorem qmin_foldl_isSome (l : List ℚ) :
    ∀ v : ℚ, ∃ m, l.foldl qmin (some v) = some m := by
  induction l with
  | nil => intro v; exact ⟨v, rfl⟩
  | cons y ys ih =>
    intro v
    rw [List.foldl_cons,
      show qmin (some v) y = if y < v then some y else some v from rfl]
    by_cases h : y < v
    · rw [if_pos h]
      exact ih y
    · rw [if_neg h]
      exact ih v

theorem qmin_foldl_le_acc (l : List ℚ) :
    ∀ (v m : ℚ), l.foldl qmin (some v) = some m → m ≤ v := by
  induction l with
  | nil =>
    intro v m h
    cases h
    exact le_refl _
  | cons y ys ih =>
    intro v m h
    rw [List.foldl_cons] at h
    show m ≤ v
    by_cases hy : y < v
    · have : qmin (some v) y = some y := by simp [qmin, hy]
      rw [this] at h
      exact (ih y m h).trans hy.le
    · have : qmin (some v) y = some v := by simp [qmin, hy]
      rw [this] at h
      exact ih v m h

theorem qmin_foldl_le_mem (l : List ℚ) :
    ∀ (acc : Option ℚ) (m : ℚ), l.foldl qmin acc = some m →
      ∀ y ∈ l, m ≤ y := by
  induction l with
  | nil =>
    intro acc m _ y hy
    cases hy
  | cons z zs ih =>
    intro acc m h y hy
    rw [List.foldl_cons] at h
    rcases List.mem_cons.mp hy with hEq | hmem
    · subst hEq
      have hsome : ∃ w, qmin acc y = some w ∧ w ≤ y := by
        cases acc with
        | none => exact ⟨y, rfl, le_refl _⟩
        | some v =>
          by_cases hv : y < v
          · exact ⟨y, by simp [qmin, hv], le_refl _⟩
          · exact ⟨v, by simp [qmin, hv], not_lt.mp hv⟩
      obtain ⟨w, hw, hwy⟩ := hsome
      rw [hw] at h
      exact (qmin_foldl_le_acc zs w m h).trans hwy
    · exact ih _ m h y hmem

theorem gizmo_accumulator_step_witness :
    -1 ≤ wrapDelta ((1 / 2 : ℚ) - gizmoDragState.gizmoDragStartAngle) ∧
      wrapDelta ((1 / 2 : ℚ) - gizmoDragState.gizmoDragStartAngle) ≤ 1 :=
  (gizmo_accumulator_step gizmoDragState 0 0 0 (1 / 2) Axis.yp none rfl rfl
    rfl (by norm_num) (by norm_num)
    (by
      show (-1 : ℚ) < 0
      norm_num)
    (by
      show (0 : ℚ) ≤ 1
      norm_num)).1

/-! ### Group rotation (C6) -/

theorem round_neg_one_q : round (-1 : ℚ) = -1 := by
  rw [show (-1 : ℚ) = ((-1 : ℤ) : ℚ) by norm_num, round_intCast]

theorem rotateBlock_position (b : BlockObject) (a : Axis) (now : ℚ) :
    (b.rotateBlock a now).position = b.position := by
  unfold BlockObject.rotateBlock
  split <;> rfl

theorem rotateGroup_member (s : IMState) (a : Axis) (now : ℚ) (cIdx : ℕ)
    (hc : s.centerBlock = some cIdx)
    (hnd : s.selectedGroup.Nodup)
    (hlt : ∀ j ∈ s.selectedGroup, j < s.blocks.length)
    (hidle : ∀ j ∈ s.selectedGroup,
      (s.blocks.getD j default).animating = false) :
    ∀ i, (s.rotateGroup a now).blocks.getD i default =
      if i ∈ s.selectedGroup then
        rgTransform
          (s.selectedGroup.map fun j => (j, rtTarget s.blocks cIdx a j))
          (rgYOffset s.blocks s.selectedGroup cIdx a)
          ((s.blocks.getD cIdx default).position) a now i
          (s.blocks.getD i default)
      else s.blocks.getD i default := by
  intro i
  have hany : ¬ ((s.selectedGroup.any fun j =>
      (s.blocks.getD j default).animating) = true) := by
    rw [List.any_eq_true]
    rintro ⟨j, hj, h⟩
    rw [hidle j hj] at h
    cases h
  unfold IMState.rotateGroup
  rw [hc]
  dsimp only
  rw [if_neg hany]
  dsimp only
  rw [rotationTargets_eq]
  dsimp only
  rw [show applyGroupRotation s.blocks s.selectedGroup
      (s.selectedGroup.map fun j => (j, rtTarget s.blocks cIdx a j))
      (match rtMinY s.blocks s.selectedGroup cIdx a with
        | some m => if m < 0 then -m else 0
        | none => 0)
      ((s.blocks.getD cIdx default).position) a now =
    s.selectedGroup.foldl
      (fun bl j => bl.set j (rgTransform
        (s.selectedGroup.map fun j => (j, rtTarget s.blocks cIdx a j))
        (match rtMinY s.blocks s.selectedGroup cIdx a with
          | some m => if m < 0 then -m else 0
          | none => 0)
        ((s.blocks.getD cIdx default).position) a now j (bl.getD j default)))
      s.blocks from rfl]
  rw [foldl_set_transform _ _ _ hnd hlt i]
  rw [show (match rtMinY s.blocks s.selectedGroup cIdx a with
      | some m => if m < 0 then -m else 0
      | none => 0) = rgYOffset s.blocks s.selectedGroup cIdx a from rfl]

/-- C6: `rotateGroup(axis)` gives the center block a (pre-lift) target equal
to its current position and every other member the target
`pivot + round(rotateByQuaternion(memberPos − pivot, 90°, axis))`; one
uniform vertical offset (positive exactly when the minimum world-Y over the
whole group's rotated cells is negative) is added to every member's target;
every member's orientation rotates, and a position animation arcing around
the pivot and axis is started exactly for the members whose adjusted target
differs from their current position.  In particular, rotating the
single-block group of catalog block id 2 about +Y leaves the position
unchanged and runs only the orientation animation. -/
theorem rotateGroup_targets_and_animations (s : IMState) (a : Axis)
    (now : ℚ) (cIdx : ℕ)
    (hc : s.centerBlock = some cIdx)
    (hnd : s.selectedGroup.Nodup)
    (hlt : ∀ j ∈ s.selectedGroup, j < s.blocks.length)
    (hidle : ∀ j ∈ s.selectedGroup,
      (s.blocks.getD j default).animating = false) :
    (rtTarget s.blocks cIdx a cIdx = (s.blocks.getD cIdx default).position) ∧
      (∀ i ∈ s.selectedGroup, i ≠ cIdx →
        rtTarget s.blocks cIdx a i =
          (s.blocks.getD cIdx default).position +
            (roundQ3 (rotQ a ((s.blocks.getD i default).position -
              (s.blocks.getD cIdx default).position))).toQ) ∧
      (∀ i ∈ s.selectedGroup,
        (s.rotateGroup a now).blocks.getD i default =
          (let b := (s.blocks.getD i default).rotateBlock a now
           if rgAdjTarget s.blocks s.selectedGroup cIdx a i = b.position then b
           else
             b.animatePositionTo (rgAdjTarget s.blocks s.selectedGroup cIdx a i)
               (some ((s.blocks.getD cIdx default).position)) (some a) now)) ∧
      (∀ i ∈ s.selectedGroup,
        (((s.rotateGroup a now).blocks.getD i default).posAnimating = true ↔
          rgAdjTarget s.blocks s.selectedGroup cIdx a i ≠
            (s.blocks.getD i default).position)) ∧
      (scenario2State.rotateGroup .yp 5).blocks.getD 0 default =
        { scenario2State.blocks.getD 0 default with
            isAnimating := true
            animStartTime := 5
            pendingCells :=
              some [⟨0, 0, 0⟩, ⟨0, 0, 1⟩, ⟨0, 0, -1⟩, ⟨1, 0, -1⟩] } := by
  have hmem := rotateGroup_member s a now cIdx hc hnd hlt hidle
  refine ⟨by simp [rtTarget], ?_, ?_, ?_, ?_⟩
  · intro i _ hne
    simp [rtTarget, hne]
  · intro i hi
    rw [hmem i, if_pos hi]
    unfold rgTransform
    rw [lookupTarget_map _ _ _ hi]
    rfl
  · intro i hi
    have hpa : (s.blocks.getD i default).posAnimating = false := by
      have := hidle i hi
      unfold BlockObject.animating at this
      exact (Bool.or_eq_false_iff.mp this).2
    rw [hmem i, if_pos hi]
    unfold rgTransform
    rw [lookupTarget_map _ _ _ hi]
    dsimp only
    rw [show (⟨(rtTarget s.blocks cIdx a i).x,
        (rtTarget s.blocks cIdx a i).y + rgYOffset s.blocks s.selectedGroup cIdx a,
        (rtTarget s.blocks cIdx a i).z⟩ : Q3) =
      rgAdjTarget s.blocks s.selectedGroup cIdx a i from rfl]
    rw [rotateBlock_position]
    by_cases hEq : rgAdjTarget s.blocks s.selectedGroup cIdx a i =
        (s.blocks.getD i default).position
    · rw [if_pos hEq]
      constructor
      · intro h
        rw [show ((s.blocks.getD i default).rotateBlock a now).posAnimating =
          (s.blocks.getD i default).posAnimating from by
            unfold BlockObject.rotateBlock
            split <;> rfl] at h
        rw [hpa] at h
        cases h
      · intro h
        exact absurd hEq h
    · rw [if_neg hEq]
      simp only [BlockObject.animatePositionTo]
      exact ⟨fun _ => hEq, fun _ => trivial⟩
  · norm_num [scenario2State, initState, initBlocks, BlockObject.ofDef,
      BlockObject.snapToGrid, IMState.rotateGroup, rotationTargets,
      applyGroupRotation, lookupTarget, qmin, rotQ, roundQ3, Z3.toQ,
      Vec3.cross, Vec3.dot, Vec3.scale, Axis.vec, BlockObject.animating,
      BlockObject.rotateBlock, BlockObject.animatePositionTo, cellRot,
      round_neg_one_q]

theorem rotateGroup_targets_and_animations_witness :
    rtTarget scenario2State.blocks 0 .yp 0 =
      (scenario2State.blocks.getD 0 default).position :=
  (rotateGroup_targets_and_animations scenario2State .yp 5 0 rfl
    (by decide)
    (by
      intro j hj
      rw [show scenario2State.selectedGroup = [0] from rfl,
        List.mem_singleton] at hj
      subst hj
      show 0 < scenario2State.blocks.length
      norm_num [scenario2State, initState, initBlocks])
    (by
      intro j hj
      rw [show scenario2State.selectedGroup = [0] from rfl,
        List.mem_singleton] at hj
      subst hj
      norm_num [scenario2State, initState, initBlocks, BlockObject.ofDef,
        BlockObject.snapToGrid, BlockObject.animating])).1

/-! ### Concrete trace evaluation (counterexamples for C1, C4, C8) -/

theorem none_ne_some_n (x : ℕ) : ((none : Option ℕ) = some x) = False := by
  simp only [eq_iff_iff, iff_false]
  exact fun h => Option.noConfusion h

theorem abs_half_q : |(1 : ℚ) / 2| = 1 / 2 := by
  rw [abs_of_pos]
  norm_num

theorem soloStart_eval : soloStart = soloStartL := by
  norm_num [soloStart, initState, initBlocks, BlockObject.ofDef,
    BlockObject.snapToGrid, soloStartL, b0, List.range_succ]

theorem step_press : step soloStartL (.pointerDown 0 0 none (some 0)) = pressS := by
  norm_num [step, IMState.onPointerDown, soloStartL, pressS, b0,
    Prod.mk_zero_zero]

theorem step_select : step pressS (.pointerUp 0 0 false true) = selS := by
  norm_num [step, IMState.onPointerUp, IMState.selectGroupWithCenter,
    IMState.resetPointerState, setSelectedAll, findConnectedBlocks,
    findConnectedAux, areAdjacent, BlockObject.getWorldCellPositions,
    roundQ3, Z3.toQ, pressS, selS, soloStartL, b0, List.range_succ,
    none_ne_some_n, mouseMoveThreshold, Prod.mk_zero_zero]

theorem step_press2 : step selS (.pointerDown 0 0 none (some 0)) = selPressS := by
  norm_num [step, IMState.onPointerDown, selS, selPressS, soloStartL, b0,
    Prod.mk_zero_zero]

theorem step_dragstart :
    step selPressS (.pointerMove 1000 10 0 none (some ⟨5, 5, 5⟩)) = dragS := by
  norm_num [step, IMState.onPointerMove, IMState.startDrag,
    applyGroupDragDelta, mouseMoveThreshold, selPressS, selS, dragS,
    soloStartL, b0, BlockObject.animating, Prod.mk_zero_zero, Z3.toQ,
    roundQ3]

/-- C8 counterexample: after selecting block 0 (gizmo shown) and then
dragging it, the reached state has a selected center block while the gizmo
is hidden (`startDrag` hides it), refuting "gizmo visible iff a center block
is selected" at that instant. -/
theorem gizmo_hidden_during_drag_counterexample :
    (run soloStart dragHidesGizmoTrace).centerBlock = some 0 ∧
      (run soloStart dragHidesGizmoTrace).gizmoVisible = false := by
  have h : run soloStart dragHidesGizmoTrace = dragS := by
    unfold run dragHidesGizmoTrace
    rw [List.foldl_cons, List.foldl_cons, List.foldl_cons, List.foldl_cons,
      List.foldl_nil]
    rw [soloStart_eval, step_press, step_select, step_press2, step_dragstart]
  rw [h]
  exact ⟨rfl, rfl⟩

theorem step_ringpress :
    step selS (.pointerDown 0 0 (some (.xp, 0)) none) = rotPressS := by
  norm_num [step, IMState.onPointerDown, selS, rotPressS, soloStartL, b0,
    Prod.mk_zero_zero]

theorem step_xrotate :
    step rotPressS (.pointerMove 1000 0 0 (some (1 / 2)) none) = rotatingS := by
  norm_num [step, IMState.onPointerMove, wrapDelta, IMState.rotateGroup,
    rotationTargets, qmin, lookupTarget, applyGroupRotation,
    BlockObject.rotateBlock, BlockObject.animatePositionTo, cellRot, rotQ,
    roundQ3, Z3.toQ, Vec3.cross, Vec3.dot, Vec3.scale, Axis.vec,
    round_neg_one_q, BlockObject.animating, rotPressS, rotatingS, selS,
    soloStartL, b0, abs_half_q]

theorem step_xtick :
    step rotatingS (.tick 1300 fun _ => ⟨0, 0, 0⟩) = rotatedS := by
  norm_num [step, IMState.tick, BlockObject.updateAnimation,
    ROTATION_DURATION, List.range_succ, rotatingS, rotatedS, rotPressS,
    selS, soloStartL, b0]

theorem step_xrelease :
    step rotatedS (.pointerUp 0 0 false false) = rotDoneS := by
  norm_num [step, IMState.onPointerUp, rotatedS, rotDoneS, rotPressS, selS,
    soloStartL, b0]

theorem step_press3 :
    step rotDoneS (.pointerDown 0 0 none (some 0)) = rotPress2S := by
  norm_num [step, IMState.onPointerDown, rotDoneS, rotPress2S, rotatedS,
    rotPressS, selS, soloStartL]

theorem step_dragstart2 :
    step rotPress2S (.pointerMove 2100 10 0 none (some ⟨5, 5, 5⟩)) =
      dragDown1S := by
  norm_num [step, IMState.onPointerMove, IMState.startDrag,
    applyGroupDragDelta, mouseMoveThreshold, rotPress2S, rotDoneS, rotatedS,
    rotPressS, selS, soloStartL, b0, dragDown1S, Z3.toQ, roundQ3]

theorem step_dragdown :
    step dragDown1S (.pointerMove 2200 10 0 none (some ⟨5, 4, 5⟩)) =
      dragDown2S := by
  norm_num [step, IMState.onPointerMove, IMState.startDrag,
    applyGroupDragDelta, mouseMoveThreshold, dragDown1S, dragDown2S,
    rotPress2S, rotDoneS, rotatedS, rotPressS, selS, soloStartL, b0,
    Z3.toQ, roundQ3]

theorem step_dragrelease :
    step dragDown2S (.pointerUp 10 0 false false) = dragDoneS := by
  norm_num [step, IMState.onPointerUp, BlockObject.snapToGrid,
    IMState.resetPointerState, dragDown2S, dragDown1S, dragDoneS,
    rotPress2S, rotDoneS, rotatedS, rotPressS, selS, soloStartL, b0,
    Z3.toQ, roundQ3]

/-- C1 counterexample: starting from the catalog solo block, select it,
rotate it 90° about +X through the gizmo (the group floor lift raises it to
y = 1 because the rotated shape has a cell at local y = −1), let the
animation complete, then drag it one unit down and release.  The drag end
only clamps the block's *position* at y ≥ 0, so the completed drag leaves an
occupied cell at world y = −1. -/
theorem floor_after_drag_counterexample :
    (run soloStart floorBreakTrace).isDragging = false ∧
      (((run soloStart floorBreakTrace).blocks.getD 0
          default).getWorldCellPositions.any fun c => c.y < 0) = true := by
  have h : run soloStart floorBreakTrace = dragDoneS := by
    unfold run floorBreakTrace
    rw [List.foldl_cons, List.foldl_cons, List.foldl_cons, List.foldl_cons,
      List.foldl_cons, List.foldl_cons, List.foldl_cons, List.foldl_cons,
      List.foldl_cons, List.foldl_cons, List.foldl_nil]
    rw [soloStart_eval, step_press, step_select, step_ringpress,
      step_xrotate, step_xtick, step_xrelease, step_press3, step_dragstart2,
      step_dragdown, step_dragrelease]
  rw [h]
  refine ⟨rfl, ?_⟩
  norm_num [dragDoneS, rotDoneS, rotatedS, rotPressS, selS, soloStartL,
    BlockObject.getWorldCellPositions, roundQ3, Z3.toQ, round_neg_one_q]

theorem step_yringpress :
    step selS (.pointerDown 0 0 (some (.yp, 0)) none) = yRingPressS := by
  norm_num [step, IMState.onPointerDown, selS, yRingPressS, soloStartL, b0,
    Prod.mk_zero_zero]

theorem step_yrotate :
    step yRingPressS (.pointerMove 1000 2 0 (some (1 / 2)) none) =
      yRotatingS := by
  norm_num [step, IMState.onPointerMove, wrapDelta, IMState.rotateGroup,
    rotationTargets, qmin, lookupTarget, applyGroupRotation,
    BlockObject.rotateBlock, BlockObject.animatePositionTo, cellRot, rotQ,
    roundQ3, Z3.toQ, Vec3.cross, Vec3.dot, Vec3.scale, Axis.vec,
    round_neg_one_q, BlockObject.animating, yRingPressS, yRotatingS, selS,
    soloStartL, b0, abs_half_q]

theorem step_ytick :
    step yRotatingS (.tick 1300 fun _ => ⟨0, 0, 0⟩) = yRotatedS := by
  norm_num [step, IMState.tick, BlockObject.updateAnimation,
    ROTATION_DURATION, List.range_succ, yRotatingS, yRotatedS, yRingPressS,
    selS, soloStartL, b0]

theorem step_yrelease :
    step yRotatedS (.pointerUp 2 0 false false) = yDoneS := by
  norm_num [step, IMState.onPointerUp, yRotatedS, yDoneS, yRingPressS,
    selS, soloStartL, b0]

/-- C4 counterexample: a press that grabs a gizmo ring is never gated by the
3-pixel threshold: with every pointer sample within 2 device pixels of the
press point, the gesture still commits a 90° rotation, and the block's
committed cell list changes before the release. -/
theorem click_purity_counterexample :
    ((2 - 0 : ℚ) * (2 - 0) + (0 - 0) * (0 - 0) < mouseMoveThreshold ^ 2) ∧
      ((run soloStart gizmoClickTrace).blocks.getD 0 default).cells ≠
        (soloStart.blocks.getD 0 default).cells := by
  have h : run soloStart gizmoClickTrace = yDoneS := by
    unfold run gizmoClickTrace
    rw [List.foldl_cons, List.foldl_cons, List.foldl_cons, List.foldl_cons,
      List.foldl_cons, List.foldl_cons, List.foldl_nil]
    rw [soloStart_eval, step_press, step_select, step_yringpress,
      step_yrotate, step_ytick, step_yrelease]
  rw [h]
  constructor
  · norm_num [mouseMoveThreshold]
  · rw [soloStart_eval]
    norm_num [yDoneS, yRotatedS, yRingPressS, selS, soloStartL, b0]

/-! ### Gizmo visibility (C8 amended) -/

theorem flipBlock_only_blocks (s : IMState) (a : Axis) (now : ℚ) :
    s.flipBlock a now = { s with blocks := (s.flipBlock a now).blocks } := by
  unfold IMState.flipBlock
  split
  · rfl
  · split
    · rfl
    · exact rotateGroup_only_blocks s a now

theorem tick_only_blocks (s : IMState) (now : ℚ) (interp : ℕ → Q3) :
    s.tick now interp = { s with blocks := (s.tick now interp).blocks } := rfl

/-- C8 (amended): at every point in time, the rotation gizmo is visible if
and only if a center block is selected *and no block drag is in progress*
(`startDrag` hides the gizmo for the duration of a drag; the releasing
`onPointerUp` re-shows it at the center).  The invariant holds in the
constructor state and is preserved by every event; for the `dblclick` and
`selectBlockById` entry points this relies on the host dispatching them only
while no pointer drag is in progress (a browser fires `dblclick` after
`pointerup`, and the sidebar is not reachable mid-drag). -/
theorem gizmo_visibility_invariant (defs : List BlockDefinition)
    (starts : List Q3) (s : IMState) (e : Event)
    (hext : (∃ bh, e = .dblClick bh) ∨ (∃ id, e = .selectById id) →
      s.isDragging = false)
    (hinv : GizmoInv s) :
    GizmoInv (initState defs starts) ∧ GizmoInv (step s e) := by
  unfold GizmoInv at hinv ⊢
  refine ⟨rfl, ?_⟩
  cases e with
  | pointerDown cx cy rh bh =>
    unfold step IMState.onPointerDown
    dsimp only
    split
    · split
      · simpa using hinv
      · cases bh <;> simpa using hinv
    · cases bh <;> simpa using hinv
  | pointerMove now cx cy ga di =>
    unfold step IMState.onPointerMove IMState.startDrag
    dsimp only
    split
    · split
      · simpa using hinv
      · split
        · rw [rotateGroup_only_blocks]
          simpa using hinv
        · simpa using hinv
    · repeat' split
      all_goals simp_all
  | pointerUp cx cy ur ub =>
    unfold step IMState.onPointerUp
    dsimp only
    split
    · simpa using hinv
    · rename_i hnotgz
      split
      · rename_i hdrag
        split <;> split <;> simp_all [IMState.resetPointerState]
      · rename_i hnotdrag
        split
        · split
          · simp [IMState.selectGroupWithCenter, IMState.resetPointerState,
              setSelectedAll]
          · rename_i hnd hcen
            simp only [IMState.resetPointerState]
            simp only [Bool.not_false] at hinv ⊢
            rw [show (¬s.isDragging = true) ↔ (s.isDragging = false) by
              simp] at hnotdrag
            rw [hnotdrag] at hinv
            simpa using hinv
        · split
          · split
            · split
              · simp_all [IMState.resetPointerState]
              · split
                · simp [IMState.deselectAll, IMState.resetPointerState,
                    setSelectedAll]
                · simp_all [IMState.resetPointerState]
            · simp_all [IMState.resetPointerState]
          · simp_all [IMState.resetPointerState]
  | dblClick bh =>
    have hd : s.isDragging = false := hext (Or.inl ⟨bh, rfl⟩)
    unfold step IMState.onDblClick
    dsimp only
    split
    · simpa using hinv
    · simp [hd]
  | selectById id =>
    have hd : s.isDragging = false := hext (Or.inr ⟨id, rfl⟩)
    unfold step IMState.selectBlockById
    dsimp only
    split
    · simp [IMState.selectGroupWithCenter, hd]
    · simpa using hinv
  | flip a now =>
    rw [show step s (.flip a now) = s.flipBlock a now from rfl,
      flipBlock_only_blocks]
    simpa using hinv
  | tick now interp =>
    rw [show step s (.tick now interp) = s.tick now interp from rfl,
      tick_only_blocks]
    simpa using hinv

theorem gizmo_visibility_invariant_witness :
    GizmoInv (initState [] []) ∧ GizmoInv (step soloStartL (.tick 0 fun _ => ⟨0, 0, 0⟩)) :=
  gizmo_visibility_invariant [] [] soloStartL (.tick 0 fun _ => ⟨0, 0, 0⟩)
    (by rintro (⟨bh, h⟩ | ⟨id, h⟩) <;> cases h) rfl

/-! ### Claim C4 (amended): a press–release window that never crosses the
3-pixel threshold leaves every block's position and cells untouched -/

theorem set_getD_self_eq (l : List BlockObject) : ∀ i : ℕ,
    l.set i (l.getD i default) = l := by
  induction l with
  | nil => intro i; rfl
  | cons a t ih =>
    intro i
    cases i with
    | zero => rfl
    | succ n =>
      show a :: t.set n (t.getD n default) = a :: t
      rw [ih n]

theorem updateAnimation_idle (b : BlockObject) (now : ℚ) (interp : Q3)
    (h : b.animating = false) : b.updateAnimation now interp = b := by
  simp only [BlockObject.animating, Bool.or_eq_false_iff] at h
  simp [BlockObject.updateAnimation, h.1, h.2]

theorem tick_fold_idle (now : ℚ) (interp : ℕ → Q3) :
    ∀ (l : List ℕ) (bl : List BlockObject),
      (∀ b ∈ bl, b.animating = false) →
      l.foldl
          (fun bl i => bl.set i ((bl.getD i default).updateAnimation now (interp i)))
          bl = bl := by
  intro l
  induction l with
  | nil => intro bl _; rfl
  | cons i rest ih =>
    intro bl hidle
    rw [List.foldl_cons]
    have hb : (bl.getD i default).animating = false := by
      by_cases hi : i < bl.length
      · refine hidle _ ?_
        rw [List.getD_eq_getElem _ _ hi]
        exact List.getElem_mem hi
      · rw [List.getD_eq_default _ _ (le_of_not_lt hi)]
        rfl
    rw [updateAnimation_idle _ _ _ hb, set_getD_self_eq]
    exact ih bl hidle

theorem tick_idle (s : IMState) (now : ℚ) (interp : ℕ → Q3)
    (h : ∀ b ∈ s.blocks, b.animating = false) : s.tick now interp = s := by
  unfold IMState.tick
  rw [tick_fold_idle now interp _ _ h]

theorem onPointerDown_noRing (s : IMState) (cx cy : ℚ) (bh : Option ℕ) :
    s.onPointerDown cx cy none bh =
      match bh with
      | some i =>
        { s with
          mouseDownPos := (cx, cy)
          pendingBlock := some i
          hasMovedPastThreshold := false }
      | none => { s with mouseDownPos := (cx, cy) } := by
  unfold IMState.onPointerDown
  dsimp only
  split <;> cases bh <;> rfl

theorem window_step_id (t : IMState) (cx cy : ℚ) (e : Event)
    (hidle : ∀ b ∈ t.blocks, b.animating = false)
    (hd : t.isDragging = false) (hg : t.isGizmoDragging = false)
    (hm : t.mouseDownPos = (cx, cy)) (he : WindowEvent cx cy e) :
    step t e = t := by
  cases e with
  | pointerDown cx' cy' rh bh => exact he.elim
  | pointerUp cx' cy' ur ub => exact he.elim
  | dblClick bh => exact he.elim
  | selectById id => exact he.elim
  | flip a now => exact he.elim
  | tick now interp =>
    show t.tick now interp = t
    exact tick_idle t now interp hidle
  | pointerMove now cx' cy' ga di =>
    have hlt : (cx' - cx) * (cx' - cx) + (cy' - cy) * (cy' - cy) <
        mouseMoveThreshold ^ 2 := he
    have h9 : ¬ mouseMoveThreshold ^ 2 ≤
        (cx' - t.mouseDownPos.1) * (cx' - t.mouseDownPos.1) +
          (cy' - t.mouseDownPos.2) * (cy' - t.mouseDownPos.2) := by
      rw [hm]
      exact not_le.mpr hlt
    show t.onPointerMove now cx' cy' ga di = t
    unfold IMState.onPointerMove
    rw [if_neg (by simp [hg])]
    dsimp only
    rw [if_neg h9, ite_self, if_neg (by simp [hd])]

theorem run_window_id (cx cy : ℚ) :
    ∀ (ws : List Event) (t : IMState),
      (∀ b ∈ t.blocks, b.animating = false) → t.isDragging = false →
      t.isGizmoDragging = false → t.mouseDownPos = (cx, cy) →
      (∀ e ∈ ws, WindowEvent cx cy e) → run t ws = t := by
  intro ws
  induction ws with
  | nil => intro t _ _ _ _ _; rfl
  | cons e rest ih =>
    intro t hidle hd hg hm hws
    have h1 : step t e = t :=
      window_step_id t cx cy e hidle hd hg hm (hws e (List.mem_cons_self _ _))
    rw [run, List.foldl_cons, h1]
    exact ih t hidle hd hg hm fun e' he' => hws e' (List.mem_cons_of_mem _ he')

theorem getD_setSelectedAll_fields (idxs : List ℕ) (v : Bool) :
    ∀ (bl : List BlockObject) (i : ℕ),
      ((setSelectedAll bl idxs v).getD i default).position =
          (bl.getD i default).position ∧
        ((setSelectedAll bl idxs v).getD i default).cells =
          (bl.getD i default).cells := by
  induction idxs with
  | nil => intro bl i; exact ⟨rfl, rfl⟩
  | cons j rest ih =>
    intro bl i
    have hstep :
        ((bl.set j { bl.getD j default with selected := v }).getD i default).position =
            (bl.getD i default).position ∧
          ((bl.set j { bl.getD j default with selected := v }).getD i default).cells =
            (bl.getD i default).cells := by
      by_cases hij : i = j
      · subst hij
        by_cases hlt : i < bl.length
        · rw [getD_set_self _ _ _ hlt]
          exact ⟨rfl, rfl⟩
        · rw [List.set_eq_of_length_le (le_of_not_lt hlt)]
          exact ⟨rfl, rfl⟩
      · rw [getD_set_ne _ _ _ _ hij]
        exact ⟨rfl, rfl⟩
    have h2 := ih (bl.set j { bl.getD j default with selected := v }) i
    simp only [setSelectedAll, List.foldl_cons]
    simp only [setSelectedAll] at h2
    exact ⟨h2.1.trans hstep.1, h2.2.trans hstep.2⟩

theorem onPointerUp_click_fields (s : IMState) (cx cy : ℚ) (ur ub : Bool)
    (hd : s.isDragging = false) (hg : s.isGizmoDragging = false) (i : ℕ) :
    ((s.onPointerUp cx cy ur ub).blocks.getD i default).position =
        (s.blocks.getD i default).position ∧
      ((s.onPointerUp cx cy ur ub).blocks.getD i default).cells =
        (s.blocks.getD i default).cells := by
  unfold IMState.onPointerUp
  rw [if_neg (by simp [hg]), if_neg (by simp [hd])]
  dsimp only
  repeat' split
  all_goals
    first
      | exact ⟨rfl, rfl⟩
      | (simp only [IMState.resetPointerState, IMState.selectGroupWithCenter,
          IMState.deselectAll]
         exact ⟨(getD_setSelectedAll_fields _ _ _ _).1.trans
             (getD_setSelectedAll_fields _ _ _ _).1,
           (getD_setSelectedAll_fields _ _ _ _).2.trans
             (getD_setSelectedAll_fields _ _ _ _).2⟩)
      | (simp only [IMState.resetPointerState, IMState.deselectAll]
         exact ⟨(getD_setSelectedAll_fields _ _ _ _).1,
           (getD_setSelectedAll_fields _ _ _ _).2⟩)

/-- C4 (amended): a button-0 press that does not grab a gizmo ring, made in a
quiescent state (no gesture in flight, no block animating), followed by any
pointer moves whose displacement from the press point stays strictly inside
the 3-pixel threshold and any render ticks, and then a release anywhere,
leaves every block's position and cell list exactly as they were — only the
selection highlight and gizmo may change.  (The unamended claim is refuted by
`click_purity_counterexample`: a press on the visible gizmo starts a ring
drag with no threshold test at all, so a sub-threshold move can rotate the
selection.) -/
theorem click_without_drag_moves_nothing (s : IMState) (cx cy upx upy : ℚ)
    (bh : Option ℕ) (ws : List Event) (ur ub : Bool)
    (hng : NoGesture s) (hws : ∀ e ∈ ws, WindowEvent cx cy e) (i : ℕ) :
    ((run s (.pointerDown cx cy none bh ::
          (ws ++ [.pointerUp upx upy ur ub]))).blocks.getD i default).position =
        (s.blocks.getD i default).position ∧
      ((run s (.pointerDown cx cy none bh ::
          (ws ++ [.pointerUp upx upy ur ub]))).blocks.getD i default).cells =
        (s.blocks.getD i default).cells := by
  obtain ⟨hd, hg, hp, hidle⟩ := hng
  have hrun : run s (.pointerDown cx cy none bh ::
      (ws ++ [.pointerUp upx upy ur ub])) =
      step (run (step s (.pointerDown cx cy none bh)) ws)
        (.pointerUp upx upy ur ub) := by
    rw [run, List.foldl_cons, List.foldl_append]
    rfl
  set t := step s (.pointerDown cx cy none bh) with ht
  have htfacts : t.blocks = s.blocks ∧ t.isDragging = false ∧
      t.isGizmoDragging = false ∧ t.mouseDownPos = (cx, cy) := by
    rw [ht,
      show step s (.pointerDown cx cy none bh) = s.onPointerDown cx cy none bh
        from rfl,
      onPointerDown_noRing]
    cases bh <;> exact ⟨rfl, hd, hg, rfl⟩
  have hwin : run t ws = t :=
    run_window_id cx cy ws t (fun b hb => hidle b (htfacts.1 ▸ hb)) htfacts.2.1
      htfacts.2.2.1 htfacts.2.2.2 hws
  rw [hrun, hwin]
  have hup := onPointerUp_click_fields t upx upy ur ub htfacts.2.1 htfacts.2.2.1 i
  exact ⟨hup.1.trans (by rw [htfacts.1]), hup.2.trans (by rw [htfacts.1])⟩

theorem click_without_drag_moves_nothing_witness :
    NoGesture soloStartL ∧
      (∀ e ∈ [Event.pointerMove 1 1 1 none none,
          Event.tick 5 fun _ => ⟨0, 0, 0⟩], WindowEvent 0 0 e) ∧
      ((run soloStartL (.pointerDown 0 0 none (some 0) ::
            ([Event.pointerMove 1 1 1 none none,
                Event.tick 5 fun _ => ⟨0, 0, 0⟩] ++
              [.pointerUp 0 0 false true]))).blocks.getD 0 default).position =
          (soloStartL.blocks.getD 0 default).position := by
  have hng : NoGesture soloStartL := by
    refine ⟨rfl, rfl, rfl, ?_⟩
    intro b hb
    rw [show soloStartL.blocks = [b0] from rfl] at hb
    rw [List.mem_singleton.mp hb]
    rfl
  have hws : ∀ e ∈ [Event.pointerMove 1 1 1 none none,
      Event.tick 5 fun _ => ⟨0, 0, 0⟩], WindowEvent 0 0 e := by
    intro e he
    simp only [List.mem_cons, List.not_mem_nil, or_false] at he
    rcases he with rfl | rfl
    · show (1 - 0 : ℚ) * (1 - 0) + (1 - 0) * (1 - 0) < mouseMoveThreshold ^ 2
      norm_num [mouseMoveThreshold]
    · trivial
  exact ⟨hng, hws,
    (click_without_drag_moves_nothing soloStartL 0 0 0 0 (some 0) _ false true
      hng hws 0).1⟩

/-! ### Claim C10: the per-block cell count is a session invariant -/

theorem blockLenOK_rotateBlock (N : ℕ) (b : BlockObject) (a : Axis) (now : ℚ)
    (h : BlockLenOK N b) : BlockLenOK N (b.rotateBlock a now) := by
  unfold BlockObject.rotateBlock
  split
  · exact h
  · refine ⟨h.1, ?_⟩
    intro pc hpc
    have hx : b.cells.map (cellRot a) = pc := by
      simpa using hpc
    rw [← hx, List.length_map]
    exact h.1

theorem blockLenOK_commit (N : ℕ) (b : BlockObject) (h : BlockLenOK N b) :
    (b.pendingCells.getD b.cells).length = N := by
  cases hpc : b.pendingCells with
  | none => exact h.1
  | some pc => exact h.2 pc (by rw [hpc]; rfl)

theorem blockLenOK_updateAnimation (N : ℕ) (b : BlockObject) (now : ℚ)
    (interp : Q3) (h : BlockLenOK N b) :
    BlockLenOK N (b.updateAnimation now interp) := by
  unfold BlockObject.updateAnimation
  dsimp only
  repeat' split
  all_goals
    first
      | exact h
      | exact ⟨blockLenOK_commit N _ h, fun pc hpc => Option.noConfusion hpc⟩

theorem set_lenOK (n : ℕ → ℕ) (bl : List BlockObject) (j : ℕ) (v : BlockObject)
    (hv : BlockLenOK (n j) (bl.getD j default) → BlockLenOK (n j) v)
    (h : ∀ i, BlockLenOK (n i) (bl.getD i default)) :
    ∀ i, BlockLenOK (n i) ((bl.set j v).getD i default) := by
  intro i
  by_cases hij : i = j
  · subst hij
    by_cases hi : i < bl.length
    · rw [getD_set_self _ _ _ hi]
      exact hv (h i)
    · rw [List.set_eq_of_length_le (le_of_not_lt hi)]
      exact h i
  · rw [getD_set_ne _ _ _ _ hij]
    exact h i

theorem foldl_set_lenOK (n : ℕ → ℕ)
    (g : List BlockObject → ℕ → List BlockObject)
    (hg : ∀ bl j, ∃ v, g bl j = bl.set j v ∧
        (BlockLenOK (n j) (bl.getD j default) → BlockLenOK (n j) v)) :
    ∀ (group : List ℕ) (bl : List BlockObject),
      (∀ i, BlockLenOK (n i) (bl.getD i default)) →
      ∀ i, BlockLenOK (n i) ((group.foldl g bl).getD i default) := by
  intro group
  induction group with
  | nil => intro bl h i; exact h i
  | cons j rest ih =>
    intro bl h i
    rw [List.foldl_cons]
    obtain ⟨v, hgv, hpres⟩ := hg bl j
    rw [hgv]
    exact ih (bl.set j v) (set_lenOK n bl j v hpres h) i

theorem setSelectedAll_lenOK (n : ℕ → ℕ) (idxs : List ℕ) (v : Bool)
    (bl : List BlockObject)
    (h : ∀ i, BlockLenOK (n i) (bl.getD i default)) :
    ∀ i, BlockLenOK (n i) ((setSelectedAll bl idxs v).getD i default) := by
  unfold setSelectedAll
  refine foldl_set_lenOK n _ ?_ idxs bl h
  intro bl' j
  exact ⟨_, rfl, fun hb => hb⟩

theorem applyGroupDragDelta_lenOK (n : ℕ → ℕ) (bl : List BlockObject)
    (group : List ℕ) (starts : List (ℕ × Q3)) (delta : Q3)
    (h : ∀ i, BlockLenOK (n i) (bl.getD i default)) :
    ∀ i, BlockLenOK (n i)
      ((applyGroupDragDelta bl group starts delta).getD i default) := by
  unfold applyGroupDragDelta
  refine foldl_set_lenOK n _ ?_ group bl h
  intro bl' j
  exact ⟨_, rfl, fun hb => hb⟩

theorem applyGroupRotation_lenOK (n : ℕ → ℕ) (bl : List BlockObject)
    (group : List ℕ) (targets : List (ℕ × Q3)) (yOffset : ℚ) (pivot : Q3)
    (a : Axis) (now : ℚ)
    (h : ∀ i, BlockLenOK (n i) (bl.getD i default)) :
    ∀ i, BlockLenOK (n i)
      ((applyGroupRotation bl group targets yOffset pivot a now).getD
        i default) := by
  unfold applyGroupRotation
  refine foldl_set_lenOK n _ ?_ group bl h
  intro bl' j
  refine ⟨_, rfl, fun hb => ?_⟩
  split
  · exact blockLenOK_rotateBlock _ _ _ _ hb
  · exact blockLenOK_rotateBlock _ _ _ _ hb

theorem rotateGroup_lenOK (n : ℕ → ℕ) (s : IMState) (a : Axis) (now : ℚ)
    (h : StateLenOK n s) : StateLenOK n (s.rotateGroup a now) := by
  unfold IMState.rotateGroup
  split
  · exact h
  · split
    · exact h
    · intro i
      exact applyGroupRotation_lenOK n _ _ _ _ _ _ _ h i

theorem snapFold_lenOK (n : ℕ → ℕ) (group : List ℕ) (bl : List BlockObject)
    (h : ∀ i, BlockLenOK (n i) (bl.getD i default)) :
    ∀ i, BlockLenOK (n i)
      ((group.foldl (fun bl j => bl.set j (bl.getD j default).snapToGrid)
          bl).getD i default) := by
  refine foldl_set_lenOK n _ ?_ group bl h
  intro bl' j
  exact ⟨_, rfl, fun hb => hb⟩

theorem step_lenOK (n : ℕ → ℕ) (s : IMState) (e : Event)
    (h : StateLenOK n s) : StateLenOK n (step s e) := by
  cases e with
  | pointerDown cx cy rh bh =>
    unfold step IMState.onPointerDown
    dsimp only
    split
    · split
      · exact h
      · cases bh <;> exact h
    · cases bh <;> exact h
  | pointerMove now cx cy ga di =>
    unfold step IMState.onPointerMove
    dsimp only
    split
    · split
      · exact h
      · split
        · intro i
          refine rotateGroup_lenOK n _ _ _ ?_ i
          exact h
        · exact h
    · repeat' split
      all_goals
        first
          | exact h
          | (intro i
             refine applyGroupDragDelta_lenOK n _ _ _ _ ?_ i
             exact h)
          | (intro i
             refine set_lenOK n _ _ _ ?_ ?_ i
             · exact fun hb => hb
             · exact h)
  | pointerUp cx cy ur ub =>
    unfold step IMState.onPointerUp
    dsimp only
    split
    · exact h
    · split
      · repeat' split
        all_goals
          first
            | exact h
            | (intro i
               refine snapFold_lenOK n _ _ ?_ i
               exact h)
            | (intro i
               refine set_lenOK n _ _ _ ?_ ?_ i
               · exact fun hb => hb
               · exact h)
      · repeat' split
        all_goals
          first
            | exact h
            | (intro i
               refine setSelectedAll_lenOK n _ _ _ ?_ i
               refine setSelectedAll_lenOK n _ _ _ ?_
               exact h)
            | (intro i
               refine setSelectedAll_lenOK n _ _ _ ?_ i
               exact h)
  | dblClick bh =>
    unfold step IMState.onDblClick
    dsimp only
    split
    · exact h
    · intro i
      refine setSelectedAll_lenOK n _ _ _ ?_ i
      refine setSelectedAll_lenOK n _ _ _ ?_
      exact h
  | selectById id =>
    unfold step IMState.selectBlockById
    dsimp only
    split
    · intro i
      refine setSelectedAll_lenOK n _ _ _ ?_ i
      refine setSelectedAll_lenOK n _ _ _ ?_
      exact h
    · exact h
  | flip a now =>
    show StateLenOK n (s.flipBlock a now)
    unfold IMState.flipBlock
    split
    · exact h
    · split
      · exact h
      · exact rotateGroup_lenOK n s a now h
  | tick now interp =>
    show StateLenOK n (s.tick now interp)
    unfold IMState.tick
    intro i
    refine foldl_set_lenOK n _ ?_ _ _ h i
    intro bl j
    exact ⟨_, rfl, fun hb => blockLenOK_updateAnimation _ _ _ _ hb⟩

theorem run_lenOK (n : ℕ → ℕ) : ∀ (es : List Event) (s : IMState),
    StateLenOK n s → StateLenOK n (run s es) := by
  intro es
  induction es with
  | nil => intro s h; exact h
  | cons e rest ih =>
    intro s h
    exact ih (step s e) (step_lenOK n s e h)

theorem initBlocks_pendingCells (defs : List BlockDefinition) (starts : List Q3)
    (i : ℕ) : ((initBlocks defs starts).getD i default).pendingCells = none := by
  unfold initBlocks
  by_cases hi : i < defs.length
  · rw [List.getD_eq_getElem _ _ (by simpa using hi)]
    simp [BlockObject.snapToGrid, BlockObject.ofDef]
  · rw [List.getD_eq_default _ _ (by simpa using le_of_not_lt hi)]
    rfl

/-! ### Claim C1 (amended): the floor invariant after completed gestures -/

theorem round_nonneg_q (x : ℚ) (h : 0 ≤ x) : (0 : ℤ) ≤ round x := by
  rw [round_eq]
  refine Int.le_floor.mpr ?_
  push_cast
  linarith

theorem foldl_set_length (g : List BlockObject → ℕ → List BlockObject)
    (hg : ∀ bl j, ∃ v, g bl j = bl.set j v) :
    ∀ (group : List ℕ) (bl : List BlockObject),
      (group.foldl g bl).length = bl.length := by
  intro group
  induction group with
  | nil => intro bl; rfl
  | cons j rest ih =>
    intro bl
    rw [List.foldl_cons]
    obtain ⟨v, hv⟩ := hg bl j
    rw [hv, ih (bl.set j v)]
    simp

theorem rotateGroup_blocks_length (s : IMState) (a : Axis) (now : ℚ) :
    (s.rotateGroup a now).blocks.length = s.blocks.length := by
  unfold IMState.rotateGroup
  split
  · rfl
  · split
    · rfl
    · dsimp only
      unfold applyGroupRotation
      refine foldl_set_length _ ?_ _ _
      intro bl j
      exact ⟨_, rfl⟩

theorem tick_getD (s : IMState) (now : ℚ) (interp : ℕ → Q3) (i : ℕ) :
    (s.tick now interp).blocks.getD i default =
      if i < s.blocks.length then
        (s.blocks.getD i default).updateAnimation now (interp i)
      else default := by
  unfold IMState.tick
  dsimp only
  rw [show (List.range s.blocks.length).foldl
      (fun bl i => bl.set i ((bl.getD i default).updateAnimation now (interp i)))
      s.blocks =
    (List.range s.blocks.length).foldl
      (fun bl j => bl.set j ((fun j b => b.updateAnimation now (interp j)) j
        (bl.getD j default)))
      s.blocks from rfl]
  rw [foldl_set_transform (fun j b => b.updateAnimation now (interp j))
    (List.range s.blocks.length) s.blocks (List.nodup_range _)
    (fun j hj => List.mem_range.mp hj) i]
  by_cases hi : i < s.blocks.length
  · rw [if_pos (List.mem_range.mpr hi), if_pos hi]
  · rw [if_neg (fun h => hi (List.mem_range.mp h)), if_neg hi,
      List.getD_eq_default _ _ (le_of_not_lt hi)]

theorem qmin_foldl_none_isSome (l : List ℚ) (y : ℚ) (hy : y ∈ l) :
    ∃ m, l.foldl qmin none = some m := by
  cases l with
  | nil => cases hy
  | cons z zs => exact qmin_foldl_isSome zs z

theorem rgTransform_complete (targets : List (ℕ × Q3)) (yOffset : ℚ)
    (pivot : Q3) (a : Axis) (now now' : ℚ) (i : ℕ) (b : BlockObject)
    (interp : Q3) (hidle : b.animating = false)
    (h200 : ROTATION_DURATION ≤ now' - now) :
    ((rgTransform targets yOffset pivot a now i b).updateAnimation now'
        interp).position =
      ⟨(lookupTarget targets i).x, (lookupTarget targets i).y + yOffset,
        (lookupTarget targets i).z⟩ ∧
    ((rgTransform targets yOffset pivot a now i b).updateAnimation now'
        interp).cells = b.cells.map (cellRot a) := by
  simp only [BlockObject.animating, Bool.or_eq_false_iff] at hidle
  obtain ⟨h1, h2⟩ := hidle
  have hrb : b.rotateBlock a now =
      { b with
        pendingCells := some (b.cells.map (cellRot a))
        animStartTime := now
        isAnimating := true } := by
    unfold BlockObject.rotateBlock
    rw [if_neg (by simp [h1])]
  unfold rgTransform
  dsimp only
  rw [hrb]
  constructor
  · split
    · rename_i hpos
      simp only [BlockObject.updateAnimation, h2]
      simp [h200, ← hpos]
    · simp [BlockObject.updateAnimation, BlockObject.animatePositionTo, h200]
  · split
    · simp [BlockObject.updateAnimation, h2, h200]
    · simp [BlockObject.updateAnimation, BlockObject.animatePositionTo, h200]

theorem snapToGrid_y_nonneg (b : BlockObject) :
    0 ≤ b.snapToGrid.position.y := by
  unfold BlockObject.snapToGrid
  dsimp only
  exact_mod_cast le_max_left (0 : ℤ) (round b.position.y)

theorem foldl_set_getD_not_mem (g : List BlockObject → ℕ → List BlockObject)
    (hg : ∀ bl j, ∃ v, g bl j = bl.set j v) :
    ∀ (group : List ℕ) (bl : List BlockObject) (i : ℕ), i ∉ group →
      (group.foldl g bl).getD i default = bl.getD i default := by
  intro group
  induction group with
  | nil => intro bl i _; rfl
  | cons j rest ih =>
    intro bl i hi
    rw [List.foldl_cons]
    obtain ⟨v, hv⟩ := hg bl j
    rw [hv, ih _ _ (fun h => hi (List.mem_cons_of_mem _ h)),
      getD_set_ne _ _ _ _ (fun h => hi (by rw [h]; exact List.mem_cons_self _ _))]

theorem snapFold_y_nonneg (group : List ℕ) :
    ∀ (bl : List BlockObject) (i : ℕ), i ∈ group →
      0 ≤ ((group.foldl
          (fun bl j => bl.set j (bl.getD j default).snapToGrid)
          bl).getD i default).position.y := by
  induction group with
  | nil => intro bl i hi; cases hi
  | cons j rest ih =>
    intro bl i hi
    rw [List.foldl_cons]
    by_cases hir : i ∈ rest
    · exact ih _ i hir
    · have hij : i = j := by
        rcases List.mem_cons.mp hi with h | h
        · exact h
        · exact absurd h hir
      subst hij
      rw [foldl_set_getD_not_mem
        (fun bl j => bl.set j (bl.getD j default).snapToGrid)
        (fun bl j => ⟨_, rfl⟩) rest _ i hir]
      by_cases hlen : i < bl.length
      · rw [getD_set_self _ _ _ hlen]
        exact snapToGrid_y_nonneg _
      · rw [List.set_eq_of_length_le (le_of_not_lt hlen),
          List.getD_eq_default _ _ (le_of_not_lt hlen)]
        exact le_refl 0

theorem set_snap_y_nonneg (bl : List BlockObject) (i : ℕ) :
    0 ≤ ((bl.set i (bl.getD i default).snapToGrid).getD
      i default).position.y := by
  by_cases hlen : i < bl.length
  · rw [getD_set_self _ _ _ hlen]
    exact snapToGrid_y_nonneg _
  · rw [List.set_eq_of_length_le (le_of_not_lt hlen),
      List.getD_eq_default _ _ (le_of_not_lt hlen)]
    exact le_refl 0

theorem rotateGroup_complete_floor (s : IMState) (a : Axis) (now now' : ℚ)
    (interp : ℕ → Q3) (cIdx : ℕ)
    (hc : s.centerBlock = some cIdx) (hnd : s.selectedGroup.Nodup)
    (hlt : ∀ j ∈ s.selectedGroup, j < s.blocks.length)
    (hidle : ∀ j ∈ s.selectedGroup,
      (s.blocks.getD j default).animating = false)
    (h200 : ROTATION_DURATION ≤ now' - now) :
    ∀ i ∈ s.selectedGroup,
      ∀ p ∈ (((s.rotateGroup a now).tick now' interp).blocks.getD i
          default).getWorldCellPositions, 0 ≤ p.y := by
  intro i hi p hp
  have hmem := rotateGroup_member s a now cIdx hc hnd hlt hidle
  have hilen : i < ((s.rotateGroup a now).blocks).length := by
    rw [rotateGroup_blocks_length]
    exact hlt i hi
  rw [tick_getD, if_pos hilen, hmem i, if_pos hi] at hp
  obtain ⟨hposEq, hcellsEq⟩ := rgTransform_complete
    (s.selectedGroup.map fun j => (j, rtTarget s.blocks cIdx a j))
    (rgYOffset s.blocks s.selectedGroup cIdx a)
    ((s.blocks.getD cIdx default).position) a now now' i
    (s.blocks.getD i default) (interp i) (hidle i hi) h200
  unfold BlockObject.getWorldCellPositions at hp
  rw [hcellsEq, hposEq] at hp
  rw [List.mem_map] at hp
  obtain ⟨c2, hc2, hpeq⟩ := hp
  rw [List.mem_map] at hc2
  obtain ⟨c0, hc0, hc2eq⟩ := hc2
  subst hpeq
  subst hc2eq
  show (0 : ℤ) ≤ round
    (((lookupTarget (s.selectedGroup.map fun j => (j, rtTarget s.blocks cIdx a j))
        i).y + rgYOffset s.blocks s.selectedGroup cIdx a) +
      ((cellRot a c0).y : ℚ))
  rw [lookupTarget_map _ _ _ hi, cellRot_eq_rot90]
  refine round_nonneg_q _ ?_
  have hv : (rtTarget s.blocks cIdx a i).y + ((rot90 a c0).y : ℚ) ∈
      s.selectedGroup.flatMap fun j =>
        (s.blocks.getD j default).cells.map fun cell =>
          (rtTarget s.blocks cIdx a j).y + ((rot90 a cell).y : ℚ) :=
    List.mem_flatMap.mpr ⟨i, hi, List.mem_map.mpr ⟨c0, hc0, rfl⟩⟩
  obtain ⟨m, hm⟩ := qmin_foldl_none_isSome _ _ hv
  have hmle : m ≤ (rtTarget s.blocks cIdx a i).y + ((rot90 a c0).y : ℚ) :=
    qmin_foldl_le_mem _ _ _ hm _ hv
  have hoy : rgYOffset s.blocks s.selectedGroup cIdx a =
      if m < 0 then -m else 0 := by
    unfold rgYOffset rtMinY
    rw [hm]
  rw [hoy]
  by_cases hneg : m < 0
  · rw [if_pos hneg]
    linarith
  · rw [if_neg hneg]
    push_neg at hneg
    linarith

theorem onPointerUp_drag_y (t : IMState) (cx cy : ℚ) (ur ub : Bool)
    (hd : t.isDragging = true) (hg : t.isGizmoDragging = false) :
    (∀ i ∈ t.selectedGroup, t.isGroupDrag = true →
      0 ≤ ((t.onPointerUp cx cy ur ub).blocks.getD i default).position.y) ∧
    (∀ i, t.isGroupDrag = false → t.dragTarget = some i →
      0 ≤ ((t.onPointerUp cx cy ur ub).blocks.getD i default).position.y) := by
  have hblocks : (t.onPointerUp cx cy ur ub).blocks =
      if t.isGroupDrag = true then
        t.selectedGroup.foldl
          (fun bl j => bl.set j (bl.getD j default).snapToGrid) t.blocks
      else
        match t.dragTarget with
        | some i => t.blocks.set i (t.blocks.getD i default).snapToGrid
        | none => t.blocks := by
    unfold IMState.onPointerUp
    rw [if_neg (by simp [hg]), if_pos (by simp [hd])]
    dsimp only
    repeat' split
    all_goals rfl
  constructor
  · intro i hi hgd
    rw [hblocks, if_pos hgd]
    exact snapFold_y_nonneg t.selectedGroup t.blocks i hi
  · intro i hgd hdt
    rw [hblocks, if_neg (by simp [hgd]), hdt]
    exact set_snap_y_nonneg t.blocks i

/-- C1 (amended): after a completed group rotation, the full floor invariant
holds: every occupied cell of every group member has world y ≥ 0 (the lift
`yOffset` raises every target exactly enough for the rotated minimum).  After
a completed block drag, however, only every affected block's *origin*
(`position.y`, clamped by `snapToGrid`) is guaranteed non-negative: the cell
offsets are not consulted, so a block whose shape extends below its origin
can end a drag with occupied cells at world y < 0 (see
`floor_after_drag_counterexample`). -/
theorem floor_invariant_amended (s : IMState) (a : Axis) (now now' : ℚ)
    (interp : ℕ → Q3) (cIdx : ℕ) (cx cy : ℚ) (ur ub : Bool)
    (hc : s.centerBlock = some cIdx) (hnd : s.selectedGroup.Nodup)
    (hlt : ∀ j ∈ s.selectedGroup, j < s.blocks.length)
    (hidle : ∀ j ∈ s.selectedGroup,
      (s.blocks.getD j default).animating = false)
    (h200 : ROTATION_DURATION ≤ now' - now) :
    (∀ i ∈ s.selectedGroup,
      ∀ p ∈ (((s.rotateGroup a now).tick now' interp).blocks.getD i
          default).getWorldCellPositions, 0 ≤ p.y) ∧
    (∀ t : IMState, t.isDragging = true → t.isGizmoDragging = false →
      (∀ i ∈ t.selectedGroup, t.isGroupDrag = true →
        0 ≤ ((t.onPointerUp cx cy ur ub).blocks.getD i default).position.y) ∧
      (∀ i, t.isGroupDrag = false → t.dragTarget = some i →
        0 ≤ ((t.onPointerUp cx cy ur ub).blocks.getD i
          default).position.y)) :=
  ⟨rotateGroup_complete_floor s a now now' interp cIdx hc hnd hlt hidle h200,
    fun t hd hg => onPointerUp_drag_y t cx cy ur ub hd hg⟩

theorem floor_invariant_amended_witness :
    scenario2State.centerBlock = some 0 ∧
    ROTATION_DURATION ≤ (300 : ℚ) - 5 ∧
    (∀ i ∈ scenario2State.selectedGroup,
      ∀ p ∈ (((scenario2State.rotateGroup .yp 5).tick 300
          (fun _ => ⟨0, 0, 0⟩)).blocks.getD i
            default).getWorldCellPositions, 0 ≤ p.y) := by
  refine ⟨rfl, by norm_num [ROTATION_DURATION], ?_⟩
  refine (floor_invariant_amended scenario2State .yp 5 300 (fun _ => ⟨0, 0, 0⟩)
    0 0 0 false false rfl (by decide) ?_ ?_
    (by norm_num [ROTATION_DURATION])).1
  · intro j hj
    rw [show scenario2State.selectedGroup = [0] from rfl,
      List.mem_singleton] at hj
    subst hj
    show 0 < scenario2State.blocks.length
    norm_num [scenario2State, initState, initBlocks]
  · intro j hj
    rw [show scenario2State.selectedGroup = [0] from rfl,
      List.mem_singleton] at hj
    subst hj
    norm_num [scenario2State, initState, initBlocks, BlockObject.ofDef,
      BlockObject.snapToGrid, BlockObject.animating]

/-- C10: the length of a block's cell-offset list is invariant across every
event of a session — `rotateBlock` builds `pendingCells` by an elementwise
map over the current cells, completing the orientation animation replaces
`cells` by `pendingCells`, and no other operation adds or removes cells — so
every block permanently keeps the cell count of its catalog definition. -/
theorem cell_count_session_invariant (defs : List BlockDefinition)
    (starts : List Q3) (es : List Event) (i : ℕ) :
    ((run (initState defs starts) es).blocks.getD i default).cells.length =
        ((initState defs starts).blocks.getD i default).cells.length ∧
      ((initState defs starts).blocks.getD i default).cells.length =
        (if i < defs.length then (defs.getD i default).cells.length
          else 0) := by
  constructor
  · have h0 : StateLenOK
        (fun k => ((initState defs starts).blocks.getD k default).cells.length)
        (initState defs starts) := by
      intro k
      refine ⟨rfl, ?_⟩
      intro pc hpc
      rw [show (initState defs starts).blocks = initBlocks defs starts from rfl,
        initBlocks_pendingCells] at hpc
      exact Option.noConfusion hpc
    exact (run_lenOK _ es _ h0 i).1
  · rw [show (initState defs starts).blocks = initBlocks defs starts from rfl]
    unfold initBlocks
    by_cases hi : i < defs.length
    · rw [if_pos hi, List.getD_eq_getElem _ _ (by simpa using hi)]
      simp [BlockObject.snapToGrid, BlockObject.ofDef]
    · rw [if_neg hi, List.getD_eq_default _ _ (by simpa using le_of_not_lt hi)]
      rfl

/-! ### Claim C3: `findConnectedBlocks` returns the connected component -/

theorem areAdjacent_default_left (b : BlockObject) :
    areAdjacent default b = false := rfl

theorem areAdjacent_symm (a b : BlockObject) :
    areAdjacent a b = areAdjacent b a := by
  unfold areAdjacent
  rw [Bool.eq_iff_iff]
  simp only [List.any_eq_true]
  constructor
  · rintro ⟨ca, hca, cb, hcb, h⟩
    refine ⟨cb, hcb, ca, hca, ?_⟩
    simp only [decide_eq_true_eq] at h ⊢
    omega
  · rintro ⟨cb, hcb, ca, hca, h⟩
    refine ⟨ca, hca, cb, hcb, ?_⟩
    simp only [decide_eq_true_eq] at h ⊢
    omega

theorem adjRel_symm (blocks : List BlockObject) : Symmetric (adjRel blocks) := by
  intro i j h
  refine ⟨h.2.1, h.1, ?_⟩
  rw [areAdjacent_symm]
  exact h.2.2

theorem countP_split (p q : ℕ → Bool) (l : List ℕ) :
    l.countP p = l.countP (fun x => p x && q x) +
      l.countP (fun x => p x && !q x) := by
  induction l with
  | nil => rfl
  | cons a t ih =>
    cases hp : p a <;> cases hq : q a <;>
      simp [List.countP_cons, hp, hq, ih] <;> omega

theorem bfs_budget (l visited : List ℕ) (Q P : ℕ → Bool)
    (hQ : ∀ x, Q x = ((!visited.contains x) && P x)) :
    (l.filter fun x => !(visited ++ l.filter Q).contains x).length +
      (l.filter Q).length =
    (l.filter fun x => !visited.contains x).length := by
  have hF : ∀ x ∈ l, (l.filter Q).contains x = Q x := by
    intro x hx
    cases hq : Q x
    · have hnm : x ∉ l.filter Q := by
        intro hmem
        have h2 := (List.mem_filter.mp hmem).2
        rw [hq] at h2
        cases h2
      simp [List.contains, hnm]
    · have hm : x ∈ l.filter Q := List.mem_filter.mpr ⟨hx, hq⟩
      simp [List.contains, hm]
  rw [← List.countP_eq_length_filter, ← List.countP_eq_length_filter,
    ← List.countP_eq_length_filter]
  rw [countP_split (fun x => !visited.contains x) P l]
  have h1 : (l.countP fun x => !(visited ++ l.filter Q).contains x) =
      l.countP fun x => (!visited.contains x) && !P x := by
    refine List.countP_congr ?_
    intro x hx
    show (!(visited ++ l.filter Q).contains x) = true ↔
      ((!visited.contains x) && !P x) = true
    have hc : ((visited ++ l.filter Q).contains x) =
        (visited.contains x || (l.filter Q).contains x) := by
      simp [List.contains]
    rw [hc, hF x hx, hQ x]
    cases hv : visited.contains x <;> cases hp : P x <;> simp [hv, hp]
  have h2 : (l.countP Q) =
      l.countP fun x => (!visited.contains x) && P x := by
    refine List.countP_congr ?_
    intro x _
    show Q x = true ↔ ((!visited.contains x) && P x) = true
    rw [hQ x]
  rw [h1, h2]
  omega

theorem findConnectedAux_spec (blocks : List BlockObject) (seed : ℕ) :
    ∀ (fuel : ℕ) (queue visited : List ℕ),
      visited.Nodup →
      (∀ x ∈ queue, x ∈ visited) →
      (∀ v ∈ visited, Reaches blocks seed v) →
      (∀ v ∈ visited, v ∉ queue → ∀ w, adjRel blocks v w → w ∈ visited) →
      queue.length + ((List.range blocks.length).filter
        (fun x => !visited.contains x)).length ≤ fuel →
      (∀ v ∈ visited, v ∈ findConnectedAux blocks fuel queue visited) ∧
      (∀ v ∈ findConnectedAux blocks fuel queue visited,
        Reaches blocks seed v) ∧
      (∀ v ∈ findConnectedAux blocks fuel queue visited,
        ∀ w, adjRel blocks v w →
          w ∈ findConnectedAux blocks fuel queue visited) := by
  intro fuel
  induction fuel with
  | zero =>
    intro queue visited hnd hqv hsound hclosed hbudget
    have hq : queue = [] := by
      rw [← List.length_eq_zero]
      omega
    subst hq
    exact ⟨fun v hv => hv, hsound, fun v hv w hw =>
      hclosed v hv (List.not_mem_nil v) w hw⟩
  | succ fuel ih =>
    intro queue visited hnd hqv hsound hclosed hbudget
    cases queue with
    | nil =>
      exact ⟨fun v hv => hv, hsound, fun v hv w hw =>
        hclosed v hv (List.not_mem_nil v) w hw⟩
    | cons current rest =>
      have hcv : current ∈ visited := hqv current (List.mem_cons_self _ _)
      have hstep : findConnectedAux blocks (fuel + 1) (current :: rest)
          visited =
        findConnectedAux blocks fuel
          (rest ++ (List.range blocks.length).filter
            (fun other => !visited.contains other &&
              areAdjacent (blocks.getD current default)
                (blocks.getD other default)))
          (visited ++ (List.range blocks.length).filter
            (fun other => !visited.contains other &&
              areAdjacent (blocks.getD current default)
                (blocks.getD other default))) := rfl
      have hFprops : ∀ w ∈ (List.range blocks.length).filter
          (fun other => !visited.contains other &&
            areAdjacent (blocks.getD current default)
              (blocks.getD other default)),
          w ∉ visited ∧ adjRel blocks current w := by
        intro w hw
        have hmem := List.mem_filter.mp hw
        have hb := hmem.2
        have hwrange := List.mem_range.mp hmem.1
        have hb' : w ∉ visited ∧ areAdjacent (blocks.getD current default)
            (blocks.getD w default) = true := by
          simpa [List.contains] using hb
        have hnv : w ∉ visited := hb'.1
        have hadj : areAdjacent (blocks.getD current default)
            (blocks.getD w default) = true := hb'.2
        have hcur : current < blocks.length := by
          by_contra hge
          rw [List.getD_eq_default _ _ (le_of_not_lt hge)] at hadj
          rw [areAdjacent_default_left] at hadj
          cases hadj
        exact ⟨hnv, hcur, hwrange, hadj⟩
      have hnd' : (visited ++ (List.range blocks.length).filter
          (fun other => !visited.contains other &&
            areAdjacent (blocks.getD current default)
              (blocks.getD other default))).Nodup := by
        refine hnd.append ((List.nodup_range _).filter _) ?_
        intro x hxv hxF
        exact (hFprops x hxF).1 hxv
      have hqv' : ∀ x ∈ rest ++ (List.range blocks.length).filter
          (fun other => !visited.contains other &&
            areAdjacent (blocks.getD current default)
              (blocks.getD other default)),
          x ∈ visited ++ (List.range blocks.length).filter
            (fun other => !visited.contains other &&
              areAdjacent (blocks.getD current default)
                (blocks.getD other default)) := by
        intro x hx
        rcases List.mem_append.mp hx with h | h
        · exact List.mem_append.mpr
            (Or.inl (hqv x (List.mem_cons_of_mem _ h)))
        · exact List.mem_append.mpr (Or.inr h)
      have hsound' : ∀ v ∈ visited ++ (List.range blocks.length).filter
          (fun other => !visited.contains other &&
            areAdjacent (blocks.getD current default)
              (blocks.getD other default)),
          Reaches blocks seed v := by
        intro v hv
        rcases List.mem_append.mp hv with h | h
        · exact hsound v h
        · exact Relation.ReflTransGen.tail (hsound current hcv)
            (hFprops v h).2
      have hclosed' : ∀ v ∈ visited ++ (List.range blocks.length).filter
          (fun other => !visited.contains other &&
            areAdjacent (blocks.getD current default)
              (blocks.getD other default)),
          v ∉ rest ++ (List.range blocks.length).filter
            (fun other => !visited.contains other &&
              areAdjacent (blocks.getD current default)
                (blocks.getD other default)) →
          ∀ w, adjRel blocks v w →
            w ∈ visited ++ (List.range blocks.length).filter
              (fun other => !visited.contains other &&
                areAdjacent (blocks.getD current default)
                  (blocks.getD other default)) := by
        intro v hv hvq w hw
        rcases List.mem_append.mp hv with hvv | hvF
        · by_cases hvc : v = current
          · subst hvc
            by_cases hwv : w ∈ visited
            · exact List.mem_append.mpr (Or.inl hwv)
            · refine List.mem_append.mpr (Or.inr ?_)
              refine List.mem_filter.mpr
                ⟨List.mem_range.mpr hw.2.1, ?_⟩
              rw [Bool.and_eq_true]
              refine ⟨?_, hw.2.2⟩
              simpa [List.contains] using hwv
          · refine List.mem_append.mpr (Or.inl ?_)
            refine hclosed v hvv ?_ w hw
            intro hvmem
            rcases List.mem_cons.mp hvmem with h | h
            · exact hvc h
            · exact hvq (List.mem_append.mpr (Or.inl h))
        · exact absurd (List.mem_append.mpr (Or.inr hvF)) hvq
      have hbud := bfs_budget (List.range blocks.length) visited
        (fun other => !visited.contains other &&
          areAdjacent (blocks.getD current default)
            (blocks.getD other default))
        (fun other => areAdjacent (blocks.getD current default)
          (blocks.getD other default))
        (fun x => rfl)
      have hbudget' : (rest ++ (List.range blocks.length).filter
          (fun other => !visited.contains other &&
            areAdjacent (blocks.getD current default)
              (blocks.getD other default))).length +
          ((List.range blocks.length).filter
            (fun x => !(visited ++ (List.range blocks.length).filter
              (fun other => !visited.contains other &&
                areAdjacent (blocks.getD current default)
                  (blocks.getD other default))).contains x)).length ≤
          fuel := by
        rw [List.length_append]
        simp only [List.length_cons] at hbudget
        omega
      obtain ⟨g1, g2, g3⟩ := ih _ _ hnd' hqv' hsound' hclosed' hbudget'
      rw [hstep]
      exact ⟨fun v hv => g1 v (List.mem_append.mpr (Or.inl hv)), g2, g3⟩

theorem findConnectedBlocks_iff (blocks : List BlockObject) (seed j : ℕ) :
    j ∈ findConnectedBlocks blocks seed ↔ Reaches blocks seed j := by
  obtain ⟨h1, h2, h3⟩ := findConnectedAux_spec blocks seed
    (blocks.length + 1) [seed] [seed]
    (List.nodup_singleton seed)
    (fun x hx => hx)
    (by
      intro v hv
      rw [List.mem_singleton] at hv
      subst hv
      exact Relation.ReflTransGen.refl)
    (fun v hv hnq w hw => absurd hv hnq)
    (by
      have hle := List.length_filter_le
        (fun x => !([seed] : List ℕ).contains x) (List.range blocks.length)
      simp only [List.length_range] at hle
      simp only [List.length_singleton]
      omega)
  constructor
  · exact fun h => h2 j h
  · intro hr
    induction hr with
    | refl => exact h1 seed (List.mem_singleton_self seed)
    | tail hab hbc ihab => exact h3 _ ihab _ hbc

/-- C3: `findConnectedBlocks(seed)` returns exactly the connected component
of the seed under the face-adjacency relation (some cell of one block and
some cell of the other at Manhattan distance exactly 1 in world grid
coordinates); consequently adjacent blocks A and B get the same component as
sets, and a chain A~B~C puts C in A's component. -/
theorem findConnectedBlocks_connected_component (blocks : List BlockObject)
    (seed A B C : ℕ) (hAB : adjRel blocks A B) (hBC : adjRel blocks B C) :
    (∀ j, j ∈ findConnectedBlocks blocks seed ↔ Reaches blocks seed j) ∧
    (∀ j, j ∈ findConnectedBlocks blocks A ↔
      j ∈ findConnectedBlocks blocks B) ∧
    C ∈ findConnectedBlocks blocks A := by
  refine ⟨fun j => findConnectedBlocks_iff blocks seed j, ?_, ?_⟩
  · intro j
    rw [findConnectedBlocks_iff, findConnectedBlocks_iff]
    constructor
    · intro h
      exact Relation.ReflTransGen.trans
        (Relation.ReflTransGen.single (adjRel_symm blocks hAB)) h
    · intro h
      exact Relation.ReflTransGen.trans
        (Relation.ReflTransGen.single hAB) h
  · rw [findConnectedBlocks_iff]
    exact Relation.ReflTransGen.trans
      (Relation.ReflTransGen.single hAB)
      (Relation.ReflTransGen.single hBC)

theorem findConnectedBlocks_connected_component_witness :
    adjRel chainBlocks 0 1 ∧ adjRel chainBlocks 1 2 ∧
      2 ∈ findConnectedBlocks chainBlocks 0 := by
  have h01 : adjRel chainBlocks 0 1 := by
    refine ⟨by norm_num [chainBlocks], by norm_num [chainBlocks], ?_⟩
    norm_num [chainBlocks, areAdjacent, BlockObject.getWorldCellPositions,
      BlockObject.ofDef, roundQ3, Z3.toQ, List.any_cons, List.any_nil,
      Vec3.add_def]
  have h12 : adjRel chainBlocks 1 2 := by
    refine ⟨by norm_num [chainBlocks], by norm_num [chainBlocks], ?_⟩
    norm_num [chainBlocks, areAdjacent, BlockObject.getWorldCellPositions,
      BlockObject.ofDef, roundQ3, Z3.toQ, List.any_cons, List.any_nil,
      Vec3.add_def]
  exact ⟨h01, h12,
    (findConnectedBlocks_connected_component chainBlocks 0 0 1 2 h01
      h12).2.2⟩

end TopBlock
